import Mathlib

set_option linter.unusedVariables false

deriving instance DecidableEq for Except

/-!
Shallow embedding of `spidev_module.c` (py-spidev): a Python binding for the
Linux spidev character-device interface.  Kernel system calls (`open`, `read`,
`write`, `ioctl`) are modelled by explicit oracle arguments describing the
kernel's response; every operation returns the (possibly updated) handle
state, the trace of kernel calls it issued, and either a result or the
Python exception it raises.  Machine-integer truncations of the C code
(`uint8_t`, `uint16_t`, `uint32_t` casts) are modelled with explicit `% 2^w`.
-/

/-- Result of a kernel system call: success with a value, or failure with an
errno (the C functions test for a negative return and read `errno`). -/
inductive KRes (α : Type) where
  | ok (a : α)
  | err (errno : Nat)
deriving DecidableEq

/-- Python-level outcome of an operation.  `typeError`, `overflowError` and
`ioError` model `PyErr_SetString(PyExc_TypeError, ...)`,
`PyErr_SetString(PyExc_OverflowError, ...)` and
`PyErr_SetFromErrno(PyExc_IOError)`.  `shortRW` models the
`perror("short write"); return NULL;` branches, and `verifyFailed` the
`return -1` of `__spidev_set_mode` when the read-back mode differs. -/
inductive PyErr where
  | typeError
  | overflowError
  | ioError (errno : Nat)
  | shortRW
  | verifyFailed
deriving DecidableEq

/-- A Python value as far as the C module can see it: `PyLong_Check` accepts
both ints and bools (bool is a subtype of int in Python); anything else is
`pyOther`. -/
inductive PyVal where
  | pyInt (n : Int)
  | pyBool (b : Bool)
  | pyOther
deriving DecidableEq

/-- The `SpiDevObject` C struct: file descriptor plus the cached `mode`
(uint8), `bits_per_word` (uint8) and `max_speed_hz` (uint32) fields. -/
structure SpiState where
  fd : Int
  mode : Nat
  bits_per_word : Nat
  max_speed_hz : Nat
deriving DecidableEq

/-- One `struct spi_ioc_transfer` passed to `ioctl(fd, SPI_IOC_MESSAGE(1))`,
together with the bytes the kernel returned in `rx_buf` (empty when the
ioctl failed). -/
structure SpiTransfer where
  tx : List Nat
  rx : List Nat
  len : Nat
  delay_usecs : Nat
  speed_hz : Nat
  bits_per_word : Nat
deriving DecidableEq

/-- A kernel call issued by the module, as recorded in an operation's trace. -/
inductive KCall where
  | message (t : SpiTransfer)
  | wrCall (bytes : List Nat)
  | rdCall (n : Nat)
  | ioctlWrMode (v : Nat)
  | ioctlRdMode
  | ioctlWrBits (v : Nat)
  | ioctlWrSpeed (v : Nat)
  | ioctlRdBits
  | ioctlRdSpeed
  | openCall (path : String)
deriving DecidableEq

/-- PyLong_AS_LONG of a value accepted by `PyLong_Check` (int or bool). -/
def pyLongAsLong : PyVal → Option Int
  | .pyInt n => some n
  | .pyBool b => some (if b then 1 else 0)
  | .pyOther => none

/-- The `(__u8)PyLong_AS_LONG(val)` conversion: truncation to the low 8 bits. -/
def pyLongAsU8 (v : PyVal) : Option Nat :=
  (pyLongAsLong v).map (fun n => (n % 256).toNat)

/-- The `(uint32_t)PyLong_AS_LONG(val)` conversion: truncation to 32 bits. -/
def pyLongAsU32 (v : PyVal) : Option Nat :=
  (pyLongAsLong v).map (fun n => (n % 4294967296).toNat)

/-- Marshalling of one sequence element into the tx buffer:
`buf[ii] = (__u8)PyLong_AS_LONG(val)` for ints, TypeError otherwise. -/
def marshal1 (v : PyVal) : Except PyErr Nat :=
  match pyLongAsU8 v with
  | some b => .ok b
  | none => .error .typeError

/-- The byte an integer-like element marshals to (0 for non-integers;
only used under an `allInts` hypothesis or after `marshal1` succeeded). -/
def byteOf (v : PyVal) : Nat :=
  match pyLongAsU8 v with
  | some b => b
  | none => 0

/-- Bytes of a fully marshalled sequence. -/
def txBytes (vs : List PyVal) : List Nat := vs.map byteOf

/-- Every element passes `PyLong_Check` (is an int or a bool). -/
def allInts (vs : List PyVal) : Prop := ∀ v ∈ vs, v ≠ PyVal.pyOther

instance (vs : List PyVal) : Decidable (allInts vs) := by
  unfold allInts; infer_instance

/-- The marshalling loop over one block: stops with TypeError at the first
non-integer element. -/
def marshalBlock : List PyVal → Except PyErr (List Nat)
  | [] => .ok []
  | v :: vs =>
    match marshal1 v with
    | .error e => .error e
    | .ok b =>
      match marshalBlock vs with
      | .error e => .error e
      | .ok bs => .ok (b :: bs)

/-- Embedding of `get_xfer3_block_size`.  The global cache
`xfer3_block_size` is passed and returned explicitly (0 means
uninitialised); `file` is the parse of /sys/module/spidev/parameters/bufsiz
(`none`: fopen or fscanf failed).  Returns (result, new cache). -/
def get_xfer3_block_size (cache : Nat) (file : Option Int) : Nat × Nat :=
  if cache ≠ 0 then (cache, cache)
  else
    let v : Nat :=
      match file with
      | none => 4096
      | some value =>
        if 0 < value then
          (if value ≤ 65535 then value.toNat else 65535)
        else 4096
    (v, v)

/-- The `/dev/spidev%d.%d` path built by `SpiDev_open`. -/
def spidevPath (bus device : Int) : String :=
  "/dev/spidev" ++ toString bus ++ "." ++ toString device

/-- The length clamp of `SpiDev_readbytes`: read at least 1 byte, no more
than SPIDEV_MAXPATH = 4096. -/
def clampLen (len : Int) : Nat :=
  if len < 1 then 1 else if 4096 < len then 4096 else len.toNat

/-- Embedding of `SpiDev_readbytes`.  `len` is the C `int` argument,
`rd` the kernel read result (number of bytes read, or errno) and `buf`
the bytes the kernel placed in `rxbuf`. -/
def SpiDev_readbytes (s : SpiState) (len : Int) (rd : KRes Nat) (buf : Nat → Nat) :
    SpiState × List KCall × Except PyErr (List Nat) :=
  let lenC : Nat := clampLen len
  match rd with
  | .err e => (s, [KCall.rdCall lenC], .error (.ioError e))
  | .ok m =>
    if m ≠ lenC then (s, [KCall.rdCall lenC], .error .shortRW)
    else (s, [KCall.rdCall lenC], .ok ((List.range lenC).map (fun i => buf i % 256)))

/-- Embedding of `SpiDev_writebytes`.  The C `len` variable is a `uint16_t`,
so the sequence length is truncated modulo 65536 before the checks.  `wr`
maps the requested write length to the kernel's status. -/
def SpiDev_writebytes (s : SpiState) (vals : List PyVal) (wr : Nat → KRes Nat) :
    SpiState × List KCall × Except PyErr Unit :=
  let len := vals.length % 65536
  if len = 0 then (s, [], .error .typeError)
  else if 4096 < len then (s, [], .error .overflowError)
  else
    match marshalBlock (vals.take len) with
    | .error e => (s, [], .error e)
    | .ok buf =>
      match wr buf.length with
      | .err e => (s, [KCall.wrCall buf], .error (.ioError e))
      | .ok m =>
        if m ≠ len then (s, [KCall.wrCall buf], .error .shortRW)
        else (s, [KCall.wrCall buf], .ok ())

/-- Embedding of `SpiDev_xfer` (the default, non-SPIDEV_SINGLE build).
`io` is the result of `ioctl(fd, SPI_IOC_MESSAGE(1))`; `rxo i` is the byte
the kernel placed at `rxbuf[i]`; `csRd` is the result of the zero-length
workaround `read` issued when `SPI_CS_HIGH` (bit 0x04) is set in the cached
mode — its result is assigned to `status` but never inspected. -/
def SpiDev_xfer (s : SpiState) (vals : List PyVal)
    (speed_hz delay_usecs bits_per_word : Nat)
    (io : KRes Unit) (rxo : Nat → Nat) (csRd : KRes Nat) :
    SpiState × List KCall × Except PyErr (List Nat) :=
  let len := vals.length % 65536
  if len = 0 then (s, [], .error .typeError)
  else if 4096 < len then (s, [], .error .overflowError)
  else
    match marshalBlock (vals.take len) with
    | .error e => (s, [], .error e)
    | .ok txbuf =>
      let effSpeed := if speed_hz ≠ 0 then speed_hz else s.max_speed_hz
      let effBits := if bits_per_word ≠ 0 then bits_per_word else s.bits_per_word
      match io with
      | .err e =>
        (s, [KCall.message ⟨txbuf, [], len, delay_usecs, effSpeed, effBits⟩],
         .error (.ioError e))
      | .ok _ =>
        let rxl := (List.range len).map (fun i => rxo i % 256)
        (s, KCall.message ⟨txbuf, rxl, len, delay_usecs, effSpeed, effBits⟩ ::
              (if s.mode &&& 4 ≠ 0 then [KCall.rdCall 0] else []),
         .ok rxl)

/-- Embedding of `SpiDev_xfer2`; apart from GIL handling its control flow is
identical to `SpiDev_xfer`. -/
def SpiDev_xfer2 (s : SpiState) (vals : List PyVal)
    (speed_hz delay_usecs bits_per_word : Nat)
    (io : KRes Unit) (rxo : Nat → Nat) (csRd : KRes Nat) :
    SpiState × List KCall × Except PyErr (List Nat) :=
  let len := vals.length % 65536
  if len = 0 then (s, [], .error .typeError)
  else if 4096 < len then (s, [], .error .overflowError)
  else
    match marshalBlock (vals.take len) with
    | .error e => (s, [], .error e)
    | .ok txbuf =>
      let effSpeed := if speed_hz ≠ 0 then speed_hz else s.max_speed_hz
      let effBits := if bits_per_word ≠ 0 then bits_per_word else s.bits_per_word
      match io with
      | .err e =>
        (s, [KCall.message ⟨txbuf, [], len, delay_usecs, effSpeed, effBits⟩],
         .error (.ioError e))
      | .ok _ =>
        let rxl := (List.range len).map (fun i => rxo i % 256)
        (s, KCall.message ⟨txbuf, rxl, len, delay_usecs, effSpeed, effBits⟩ ::
              (if s.mode &&& 4 ≠ 0 then [KCall.rdCall 0] else []),
         .ok rxl)

/-- The block loop of `SpiDev_xfer3`: per iteration, marshal up to `bufsize`
elements, issue one `SPI_IOC_MESSAGE(1)` ioctl, collect the received bytes.
`ioerr k` is the errno of the k-th ioctl (none: success), `rxo k i` the byte
the kernel left at `rxbuf[i]` on call k.  Earlier calls issued before an
error stay in the returned trace.  (With `bufsize = 0` the C loop would not
terminate; that configuration is unreachable because
`get_xfer3_block_size` is always positive, and the model returns early.) -/
def xfer3_go (ioerr : Nat → Option Nat) (rxo : Nat → Nat → Nat)
    (bufsize effDelay effSpeed effBits : Nat) (k : Nat) (vals : List PyVal) :
    List SpiTransfer × Except PyErr (List Nat) :=
  if h : vals = [] ∨ bufsize = 0 then ([], .ok [])
  else
    match marshalBlock (vals.take bufsize) with
    | .error e => ([], .error e)
    | .ok tx =>
      match ioerr k with
      | some e => ([⟨tx, [], tx.length, effDelay, effSpeed, effBits⟩], .error (.ioError e))
      | none =>
        let rxblk := (List.range tx.length).map (fun i => rxo k i % 256)
        let t : SpiTransfer := ⟨tx, rxblk, tx.length, effDelay, effSpeed, effBits⟩
        let rest := xfer3_go ioerr rxo bufsize effDelay effSpeed effBits (k + 1)
          (vals.drop bufsize)
        (t :: rest.1,
         match rest.2 with
         | .error e => .error e
         | .ok rx => .ok (rxblk ++ rx))
termination_by vals.length
decreasing_by
  push_neg at h
  have h1 : 0 < vals.length := List.length_pos.mpr h.1
  have h2 : bufsize ≠ 0 := h.2
  simp only [List.length_drop]
  omega

/-- Embedding of `SpiDev_xfer3`.  `B` is the value of
`get_xfer3_block_size()`; the C caps `bufsize` at the sequence length. -/
def SpiDev_xfer3 (s : SpiState) (vals : List PyVal)
    (speed_hz delay_usecs bits_per_word : Nat) (B : Nat)
    (ioerr : Nat → Option Nat) (rxo : Nat → Nat → Nat) (csRd : KRes Nat) :
    SpiState × List KCall × Except PyErr (List Nat) :=
  if vals.length = 0 then (s, [], .error .typeError)
  else
    let bufsize := if vals.length < B then vals.length else B
    let effSpeed := if speed_hz ≠ 0 then speed_hz else s.max_speed_hz
    let effBits := if bits_per_word ≠ 0 then bits_per_word else s.bits_per_word
    let r := xfer3_go ioerr rxo bufsize delay_usecs effSpeed effBits 0 vals
    let msgs := r.1.map KCall.message
    match r.2 with
    | .error e => (s, msgs, .error e)
    | .ok rx =>
      (s, msgs ++ (if s.mode &&& 4 ≠ 0 then [KCall.rdCall 0] else []), .ok rx)

/-- Block loop of `SpiDev_writebytes2_seq_internal`: marshal up to `bufsize`
elements into `buf`, `write` them, repeat.  `wr k m` is the status of the
k-th write of m requested bytes. -/
def writebytes2_go (wr : Nat → Nat → KRes Nat) (bufsize : Nat) (k : Nat)
    (vals : List PyVal) : List KCall × Except PyErr Unit :=
  if h : vals = [] ∨ bufsize = 0 then ([], .ok ())
  else
    match marshalBlock (vals.take bufsize) with
    | .error e => ([], .error e)
    | .ok buf =>
      match wr k buf.length with
      | .err e => ([KCall.wrCall buf], .error (.ioError e))
      | .ok m =>
        if m ≠ buf.length then ([KCall.wrCall buf], .error .shortRW)
        else
          let rest := writebytes2_go wr bufsize (k + 1) (vals.drop bufsize)
          (KCall.wrCall buf :: rest.1, rest.2)
termination_by vals.length
decreasing_by
  push_neg at h
  have h1 : 0 < vals.length := List.length_pos.mpr h.1
  have h2 : bufsize ≠ 0 := h.2
  simp only [List.length_drop]
  omega

/-- The block size `SpiDev_writebytes2_seq` actually hands to
`seq_internal`: the computed `bufsize = min(len, B)` when it exceeds
SMALL_BUFFER_SIZE = 128 (heap branch, which passes `bufsize`), but 128
itself in the stack-buffer branch, which passes SMALL_BUFFER_SIZE — not
the computed `bufsize` — as the buffer size. -/
def seqBlockSize (len B : Nat) : Nat :=
  let bufsize := if len < B then len else B
  if bufsize ≤ 128 then 128 else bufsize

/-- Embedding of `SpiDev_writebytes2_seq` (sequence path of writebytes2).
The C computes `bufsize = min(len, B)` with `B = get_xfer3_block_size()`
and then branches: when `bufsize <= SMALL_BUFFER_SIZE` (128) it calls
`seq_internal` with a stack buffer and SMALL_BUFFER_SIZE as the buffer
size, otherwise with a heap buffer of `bufsize`; so for B < 128 blocks of
up to 128 bytes — larger than B — are written. -/
def SpiDev_writebytes2_seq (s : SpiState) (vals : List PyVal) (B : Nat)
    (wr : Nat → Nat → KRes Nat) : SpiState × List KCall × Except PyErr Unit :=
  if vals.length = 0 then (s, [], .error .typeError)
  else
    let bufsize := if vals.length < B then vals.length else B
    if bufsize ≤ 128 then
      let r := writebytes2_go wr 128 0 vals
      (s, r.1, r.2)
    else
      let r := writebytes2_go wr bufsize 0 vals
      (s, r.1, r.2)

/-- Block loop of `SpiDev_writebytes2_buffer` (buffer-protocol path): write
`min(remain, B)` bytes per iteration, no marshalling. -/
def writebytes2_buf_go (wr : Nat → Nat → KRes Nat) (B : Nat) (k : Nat)
    (data : List Nat) : List KCall × Except PyErr Unit :=
  if h : data = [] ∨ B = 0 then ([], .ok ())
  else
    let block := data.take B
    match wr k block.length with
    | .err e => ([KCall.wrCall block], .error (.ioError e))
    | .ok m =>
      if m ≠ block.length then ([KCall.wrCall block], .error .shortRW)
      else
        let rest := writebytes2_buf_go wr B (k + 1) (data.drop B)
        (KCall.wrCall block :: rest.1, rest.2)
termination_by data.length
decreasing_by
  push_neg at h
  have h1 : 0 < data.length := List.length_pos.mpr h.1
  have h2 : B ≠ 0 := h.2
  simp only [List.length_drop]
  omega

/-- Embedding of `SpiDev_writebytes2_buffer`: `B` is
`get_xfer3_block_size()`; an empty buffer issues no call and succeeds. -/
def SpiDev_writebytes2_buffer (s : SpiState) (data : List Nat) (B : Nat)
    (wr : Nat → Nat → KRes Nat) : SpiState × List KCall × Except PyErr Unit :=
  let r := writebytes2_buf_go wr B 0 data
  (s, r.1, r.2)

/-- Embedding of `__spidev_set_mode`: write the mode, read it back, fail
(without a Python exception) if the read-back differs. -/
def __spidev_set_mode (mode : Nat) (wr : KRes Unit) (rd : KRes Nat) :
    List KCall × Except PyErr Unit :=
  match wr with
  | .err e => ([KCall.ioctlWrMode mode], .error (.ioError e))
  | .ok _ =>
    match rd with
    | .err e => ([KCall.ioctlWrMode mode, KCall.ioctlRdMode], .error (.ioError e))
    | .ok test =>
      if test % 256 = mode then ([KCall.ioctlWrMode mode, KCall.ioctlRdMode], .ok ())
      else ([KCall.ioctlWrMode mode, KCall.ioctlRdMode], .error .verifyFailed)

/-- Embedding of `SpiDev_set_mode` (the `mode` attribute setter): the value
is truncated to `uint8_t` before the `> 3` check; on success only the
CPOL/CPHA bits of the cached mode change. -/
def SpiDev_set_mode (s : SpiState) (val : PyVal) (wr : KRes Unit) (rd : KRes Nat) :
    SpiState × List KCall × Except PyErr Unit :=
  match pyLongAsU8 val with
  | none => (s, [], .error .typeError)
  | some mode =>
    if 3 < mode then (s, [], .error .typeError)
    else
      let tmp := (s.mode &&& 252) ||| mode
      let r := __spidev_set_mode tmp wr rd
      match r.2 with
      | .ok _ => ({ s with mode := tmp }, r.1, .ok ())
      | .error e => (s, r.1, .error e)

/-- Common shape of the five boolean mode-flag setters (`cshigh`,
`lsbfirst`, `threewire`, `loop`, `no_cs`): they differ only in the mask
set or cleared in the cached mode byte. -/
def SpiDev_set_modeflag (mask : Nat) (s : SpiState) (val : PyVal)
    (wr : KRes Unit) (rd : KRes Nat) : SpiState × List KCall × Except PyErr Unit :=
  match val with
  | .pyBool b =>
    let tmp := if b then s.mode ||| mask else s.mode &&& (255 ^^^ mask)
    let r := __spidev_set_mode tmp wr rd
    match r.2 with
    | .ok _ => ({ s with mode := tmp }, r.1, .ok ())
    | .error e => (s, r.1, .error e)
  | _ => (s, [], .error .typeError)

/-- Embedding of `SpiDev_set_cshigh` (SPI_CS_HIGH = 0x04). -/
def SpiDev_set_cshigh : SpiState → PyVal → KRes Unit → KRes Nat →
    SpiState × List KCall × Except PyErr Unit := SpiDev_set_modeflag 4

/-- Embedding of `SpiDev_set_lsbfirst` (SPI_LSB_FIRST = 0x08). -/
def SpiDev_set_lsbfirst : SpiState → PyVal → KRes Unit → KRes Nat →
    SpiState × List KCall × Except PyErr Unit := SpiDev_set_modeflag 8

/-- Embedding of `SpiDev_set_3wire` (SPI_3WIRE = 0x10). -/
def SpiDev_set_3wire : SpiState → PyVal → KRes Unit → KRes Nat →
    SpiState × List KCall × Except PyErr Unit := SpiDev_set_modeflag 16

/-- Embedding of `SpiDev_set_loop` (SPI_LOOP = 0x20). -/
def SpiDev_set_loop : SpiState → PyVal → KRes Unit → KRes Nat →
    SpiState × List KCall × Except PyErr Unit := SpiDev_set_modeflag 32

/-- Embedding of `SpiDev_set_no_cs` (SPI_NO_CS = 0x40). -/
def SpiDev_set_no_cs : SpiState → PyVal → KRes Unit → KRes Nat →
    SpiState × List KCall × Except PyErr Unit := SpiDev_set_modeflag 64

/-- Embedding of `SpiDev_set_bits_per_word`: range check 8..32, and the
ioctl is only issued when the value differs from the cached one. -/
def SpiDev_set_bits_per_word (s : SpiState) (val : PyVal) (wr : KRes Unit) :
    SpiState × List KCall × Except PyErr Unit :=
  match pyLongAsU8 val with
  | none => (s, [], .error .typeError)
  | some bits =>
    if bits < 8 ∨ 32 < bits then (s, [], .error .typeError)
    else if s.bits_per_word ≠ bits then
      match wr with
      | .err e => (s, [KCall.ioctlWrBits bits], .error (.ioError e))
      | .ok _ => ({ s with bits_per_word := bits }, [KCall.ioctlWrBits bits], .ok ())
    else (s, [], .ok ())

/-- Embedding of `SpiDev_set_max_speed_hz`: no range check, ioctl only
issued when the value differs from the cached one. -/
def SpiDev_set_max_speed_hz (s : SpiState) (val : PyVal) (wr : KRes Unit) :
    SpiState × List KCall × Except PyErr Unit :=
  match pyLongAsU32 val with
  | none => (s, [], .error .typeError)
  | some v =>
    if s.max_speed_hz ≠ v then
      match wr with
      | .err e => (s, [KCall.ioctlWrSpeed v], .error (.ioError e))
      | .ok _ => ({ s with max_speed_hz := v }, [KCall.ioctlWrSpeed v], .ok ())
    else (s, [], .ok ())

/-- Embedding of `SpiDev_get_mode`: only the CPOL/CPHA bits are reported. -/
def SpiDev_get_mode (s : SpiState) : Nat := s.mode &&& 3

/-- Embedding of `SpiDev_open`.  `openRes` is the descriptor returned by
`open(path, O_RDWR)` (or its errno); `rdMode`, `rdBits`, `rdSpeed` are the
values the three SPI_IOC_RD_* ioctls report.  Note the partial state
updates on intermediate failures, mirroring the C control flow. -/
def SpiDev_open (s : SpiState) (bus device : Int)
    (openRes : KRes Int) (rdMode rdBits rdSpeed : KRes Nat) :
    SpiState × List KCall × Except PyErr Unit :=
  let path := spidevPath bus device
  if 4096 ≤ path.length then (s, [], .error .overflowError)
  else
    match openRes with
    | .err e => ({ s with fd := -1 }, [KCall.openCall path], .error (.ioError e))
    | .ok fd =>
      let s1 := { s with fd := fd }
      match rdMode with
      | .err e => (s1, [KCall.openCall path, KCall.ioctlRdMode], .error (.ioError e))
      | .ok m =>
        let s2 := { s1 with mode := m % 256 }
        match rdBits with
        | .err e =>
          (s2, [KCall.openCall path, KCall.ioctlRdMode, KCall.ioctlRdBits],
           .error (.ioError e))
        | .ok b =>
          let s3 := { s2 with bits_per_word := b % 256 }
          match rdSpeed with
          | .err e =>
            (s3, [KCall.openCall path, KCall.ioctlRdMode, KCall.ioctlRdBits,
                  KCall.ioctlRdSpeed], .error (.ioError e))
          | .ok sp =>
            ({ s3 with max_speed_hz := sp % 4294967296 },
             [KCall.openCall path, KCall.ioctlRdMode, KCall.ioctlRdBits,
              KCall.ioctlRdSpeed], .ok ())

/-- Consecutive blocks of size `min(remaining, B)`: the partition the
chunking loops of xfer3/writebytes2 realise.  (`B = 0` degenerates to a
single block; all uses have `B ≥ 1`.) -/
def chunks {α : Type} (B : Nat) (xs : List α) : List (List α) :=
  match xs with
  | [] => []
  | x :: rest =>
    if h : B = 0 then [x :: rest]
    else (x :: rest).take B :: chunks B ((x :: rest).drop B)
termination_by xs.length
decreasing_by
  simp only [List.length_drop, List.length_cons]
  omega

/-- The SPI_IOC_MESSAGE transfers recorded in a kernel-call trace. -/
def msgsOf (tr : List KCall) : List SpiTransfer :=
  tr.filterMap (fun c => match c with | .message t => some t | _ => none)

/-- The write-call payloads recorded in a kernel-call trace. -/
def wrBlocksOf (tr : List KCall) : List (List Nat) :=
  tr.filterMap (fun c => match c with | .wrCall bs => some bs | _ => none)

/-- A successful ioctl write of a configuration value, as observed in a
setter's trace: the payload of the C1 invariant. -/
inductive Ev where
  | evMode (v : Nat)
  | evBits (v : Nat)
  | evSpeed (v : Nat)
deriving DecidableEq

/-- The configuration-write event of a single kernel call, if any. -/
def evOfCall : KCall → Option Ev
  | .ioctlWrMode v => some (.evMode v)
  | .ioctlWrBits v => some (.evBits v)
  | .ioctlWrSpeed v => some (.evSpeed v)
  | _ => none

/-- Configuration values successfully written via ioctl during one
operation: the ioctl writes of its trace, counted only when the whole
setter sequence succeeded (a mode write whose read-back verification
failed is not a successful write of the sequence). -/
def evsOf (tr : List KCall) (r : Except PyErr Unit) : List Ev :=
  match r with
  | .error _ => []
  | .ok _ => tr.filterMap evOfCall

/-- One invocation of a configuration setter, carrying its argument and the
kernel's responses to the ioctls it may issue. -/
inductive Op where
  | oMode (val : PyVal) (wr : KRes Unit) (rd : KRes Nat)
  | oCshigh (val : PyVal) (wr : KRes Unit) (rd : KRes Nat)
  | oLsbfirst (val : PyVal) (wr : KRes Unit) (rd : KRes Nat)
  | oThreewire (val : PyVal) (wr : KRes Unit) (rd : KRes Nat)
  | oLoop (val : PyVal) (wr : KRes Unit) (rd : KRes Nat)
  | oNoCs (val : PyVal) (wr : KRes Unit) (rd : KRes Nat)
  | oBits (val : PyVal) (wr : KRes Unit)
  | oSpeed (val : PyVal) (wr : KRes Unit)

/-- Run one setter on the handle state. -/
def step (s : SpiState) : Op → SpiState × List KCall × Except PyErr Unit
  | .oMode v wr rd => SpiDev_set_mode s v wr rd
  | .oCshigh v wr rd => SpiDev_set_cshigh s v wr rd
  | .oLsbfirst v wr rd => SpiDev_set_lsbfirst s v wr rd
  | .oThreewire v wr rd => SpiDev_set_3wire s v wr rd
  | .oLoop v wr rd => SpiDev_set_loop s v wr rd
  | .oNoCs v wr rd => SpiDev_set_no_cs s v wr rd
  | .oBits v wr => SpiDev_set_bits_per_word s v wr
  | .oSpeed v wr => SpiDev_set_max_speed_hz s v wr

/-- Run a sequence of setters, collecting the successful ioctl writes. -/
def run (s : SpiState) : List Op → SpiState × List Ev
  | [] => (s, [])
  | op :: ops =>
    let r := step s op
    let rest := run r.1 ops
    (rest.1, evsOf r.2.1 r.2.2 ++ rest.2)

/-- Left-biased choice on options (first summand wins). -/
def oor (a b : Option Nat) : Option Nat :=
  match a with
  | some v => some v
  | none => b

/-- Value of the last event selected by `f`, scanning from the right. -/
def lastEv (f : Ev → Option Nat) : List Ev → Option Nat
  | [] => none
  | e :: rest => oor (lastEv f rest) (f e)

/-- Select mode-write events. -/
def evModeVal : Ev → Option Nat
  | .evMode v => some v
  | _ => none

/-- Select bits-per-word-write events. -/
def evBitsVal : Ev → Option Nat
  | .evBits v => some v
  | _ => none

/-- Select max-speed-write events. -/
def evSpeedVal : Ev → Option Nat
  | .evSpeed v => some v
  | _ => none

/-- The C1 invariant relating a final state to an initial state and the
successful configuration writes in between: each cached field equals the
last value of its kind successfully written, or its initial value when
none was. -/
def cachedInv (s sf : SpiState) (evs : List Ev) : Prop :=
  sf.mode = (lastEv evModeVal evs).getD s.mode ∧
  sf.bits_per_word = (lastEv evBitsVal evs).getD s.bits_per_word ∧
  sf.max_speed_hz = (lastEv evSpeedVal evs).getD s.max_speed_hz

theorem marshal1_ok (v : PyVal) (h : v ≠ PyVal.pyOther) : marshal1 v = .ok (byteOf v) := by
  cases v with
  | pyInt n => rfl
  | pyBool b => rfl
  | pyOther => exact absurd rfl h

theorem marshalBlock_ok (xs : List PyVal) (h : allInts xs) :
    marshalBlock xs = .ok (txBytes xs) := by
  induction xs with
  | nil => rfl
  | cons v vs ih =>
    have hv : v ≠ PyVal.pyOther := h v (List.mem_cons_self v vs)
    have hvs : allInts vs := fun w hw => h w (List.mem_cons_of_mem v hw)
    simp [marshalBlock, marshal1_ok v hv, ih hvs, txBytes]

theorem marshalBlock_err (xs : List PyVal) (h : ¬ allInts xs) :
    marshalBlock xs = .error .typeError := by
  induction xs with
  | nil => exact absurd (fun v hv => absurd hv (List.not_mem_nil v)) h
  | cons v vs ih =>
    by_cases hv : v = PyVal.pyOther
    · subst hv; rfl
    · have hvs : ¬ allInts vs := by
        intro hall
        refine h (fun w hw => ?_)
        rcases List.mem_cons.mp hw with h1 | h2
        · subst h1; exact hv
        · exact hall w h2
      simp [marshalBlock, marshal1_ok v hv, ih hvs]

theorem listBlocks_induction {α : Type} {B : Nat} (hB : 1 ≤ B) {P : List α → Prop}
    (stp : ∀ xs : List α, (xs ≠ [] → P (xs.drop B)) → P xs) : ∀ xs, P xs := by
  have key : ∀ n (xs : List α), xs.length ≤ n → P xs := by
    intro n
    induction n with
    | zero =>
      intro xs hlen
      have hx : xs = [] := List.length_eq_zero.mp (Nat.le_zero.mp hlen)
      exact stp xs (fun hne => absurd hx hne)
    | succ n ih =>
      intro xs hlen
      refine stp xs (fun hne => ih _ ?_)
      have hpos : 0 < xs.length := List.length_pos.mpr hne
      simp only [List.length_drop]
      omega
  intro xs
  exact key xs.length xs le_rfl

theorem chunks_cons {α : Type} {B : Nat} (hB : 1 ≤ B) (xs : List α) (hne : xs ≠ []) :
    chunks B xs = xs.take B :: chunks B (xs.drop B) := by
  have hB0 : B ≠ 0 := Nat.one_le_iff_ne_zero.mp hB
  cases xs with
  | nil => exact absurd rfl hne
  | cons x rest => simp [chunks, hB0]

theorem chunks_join {α : Type} (B : Nat) (xs : List α) : (chunks B xs).flatten = xs := by
  by_cases hB : B = 0
  · subst hB
    cases xs with
    | nil => simp [chunks]
    | cons x rest => simp [chunks]
  · have hB1 : 1 ≤ B := Nat.one_le_iff_ne_zero.mpr hB
    refine listBlocks_induction hB1
      (P := fun ys => (chunks B ys).flatten = ys) (fun ys ih => ?_) xs
    rcases eq_or_ne ys [] with h | h
    · subst h; simp [chunks]
    · rw [chunks_cons hB1 ys h, List.flatten_cons, ih h, List.take_append_drop]

theorem chunks_length {α : Type} {B : Nat} (hB : 1 ≤ B) (xs : List α) (hne : xs ≠ []) :
    (chunks B xs).length = (xs.length - 1) / B + 1 := by
  have hB0 : 0 < B := hB
  refine listBlocks_induction hB
    (P := fun ys => ys ≠ [] → (chunks B ys).length = (ys.length - 1) / B + 1)
    (fun ys ih => ?_) xs hne
  intro hne2
  rw [chunks_cons hB ys hne2]
  by_cases hd : ys.drop B = []
  · have hle : ys.length ≤ B := List.drop_eq_nil_iff.mp hd
    have hpos : 0 < ys.length := List.length_pos.mpr hne2
    rw [hd]
    simp [chunks, Nat.div_eq_of_lt (by omega : ys.length - 1 < B)]
  · have hlen : (ys.drop B).length = ys.length - B := List.length_drop B ys
    have hdpos : 0 < (ys.drop B).length := List.length_pos.mpr hd
    have hpos : 0 < ys.length := List.length_pos.mpr hne2
    rw [List.length_cons, ih hne2 hd, hlen]
    have hble : B ≤ ys.length - 1 := by omega
    rw [Nat.div_eq_sub_div hB0 hble]
    have heq : ys.length - 1 - B = ys.length - B - 1 := by omega
    rw [heq]

theorem chunks_sizes {α : Type} {B : Nat} (hB : 1 ≤ B) (xs : List α) :
    ∀ c ∈ chunks B xs, c.length ≤ B := by
  refine listBlocks_induction hB
    (P := fun ys => ∀ c ∈ chunks B ys, c.length ≤ B) (fun ys ih => ?_) xs
  rcases eq_or_ne ys [] with h | h
  · subst h; simp [chunks]
  · rw [chunks_cons hB ys h]
    intro c hc
    rcases List.mem_cons.mp hc with h1 | h2
    · subst h1
      calc (ys.take B).length = min B ys.length := List.length_take B ys
        _ ≤ B := min_le_left _ _
    · exact ih h c h2

theorem chunks_min {α : Type} (B : Nat) (xs : List α) :
    chunks (min B xs.length) xs = chunks B xs := by
  by_cases hle : B ≤ xs.length
  · rw [Nat.min_eq_left hle]
  · have hgt : xs.length < B := Nat.lt_of_not_le hle
    rw [Nat.min_eq_right (Nat.le_of_lt hgt)]
    rcases eq_or_ne xs [] with h | h
    · subst h; simp [chunks]
    · have hpos : 1 ≤ xs.length := List.length_pos.mpr h
      have hB1 : 1 ≤ B := by omega
      rw [chunks_cons hpos xs h, chunks_cons hB1 xs h]
      rw [List.take_length, List.drop_length,
          List.take_of_length_le (Nat.le_of_lt hgt),
          List.drop_eq_nil_of_le (Nat.le_of_lt hgt)]
      simp [chunks]

example : marshalBlock [PyVal.pyInt 300, PyVal.pyInt (-1)] = .ok [44, 255] := by decide

example :
    (SpiDev_readbytes ⟨3, 0, 8, 500000⟩ (-7) (.ok 1) (fun _ => 513)).2.2 = .ok [1] := by
  decide


theorem txBytes_take (n : Nat) (ys : List PyVal) :
    txBytes (ys.take n) = (txBytes ys).take n := by
  simp [txBytes, List.map_take]

theorem txBytes_drop (n : Nat) (ys : List PyVal) :
    txBytes (ys.drop n) = (txBytes ys).drop n := by
  simp [txBytes, List.map_drop]

theorem txBytes_ne_nil {ys : List PyVal} (h : ys ≠ []) : txBytes ys ≠ [] := by
  simpa [txBytes] using h

theorem txBytes_length (ys : List PyVal) : (txBytes ys).length = ys.length := by
  simp [txBytes]

theorem xfer3_go_ok (ioerr : Nat → Option Nat) (rxo : Nat → Nat → Nat)
    {bufsize : Nat} (d sp bi : Nat) (hb : 1 ≤ bufsize)
    (hio : ∀ j, ioerr j = none) (vals : List PyVal) :
    ∀ k, allInts vals →
      ∃ tr rx, xfer3_go ioerr rxo bufsize d sp bi k vals = (tr, .ok rx) ∧
        tr.map SpiTransfer.tx = chunks bufsize (txBytes vals) ∧
        rx = (tr.map SpiTransfer.rx).flatten ∧
        rx.length = vals.length ∧
        ∀ t ∈ tr, t.len = t.tx.length ∧ t.rx.length = t.len ∧
          t.delay_usecs = d ∧ t.speed_hz = sp ∧ t.bits_per_word = bi := by
  refine listBlocks_induction hb
    (P := fun ys => ∀ k, allInts ys →
      ∃ tr rx, xfer3_go ioerr rxo bufsize d sp bi k ys = (tr, .ok rx) ∧
        tr.map SpiTransfer.tx = chunks bufsize (txBytes ys) ∧
        rx = (tr.map SpiTransfer.rx).flatten ∧
        rx.length = ys.length ∧
        ∀ t ∈ tr, t.len = t.tx.length ∧ t.rx.length = t.len ∧
          t.delay_usecs = d ∧ t.speed_hz = sp ∧ t.bits_per_word = bi)
    (fun ys ih => ?_) vals
  intro k hall
  rcases eq_or_ne ys [] with h | h
  · subst h
    refine ⟨[], [], ?_, by simp [chunks, txBytes], rfl, rfl, ?_⟩
    · unfold xfer3_go; simp
    · intro t ht; exact absurd ht (List.not_mem_nil t)
  · have hb0 : bufsize ≠ 0 := by omega
    have htake : allInts (ys.take bufsize) :=
      fun v hv => hall v (List.mem_of_mem_take hv)
    have hdrop : allInts (ys.drop bufsize) :=
      fun v hv => hall v (List.mem_of_mem_drop hv)
    obtain ⟨tr', rx', heq, htx, hrx, hlen, hprops⟩ := ih h (k + 1) hdrop
    have hm : marshalBlock (ys.take bufsize) = .ok (txBytes (ys.take bufsize)) :=
      marshalBlock_ok _ htake
    have hstep : xfer3_go ioerr rxo bufsize d sp bi k ys =
        (⟨txBytes (ys.take bufsize),
          (List.range (txBytes (ys.take bufsize)).length).map (fun i => rxo k i % 256),
          (txBytes (ys.take bufsize)).length, d, sp, bi⟩ :: tr',
         .ok ((List.range (txBytes (ys.take bufsize)).length).map
            (fun i => rxo k i % 256) ++ rx')) := by
      unfold xfer3_go
      rw [dif_neg (by simp [h, hb0])]
      simp only [hm, hio, heq]
    refine ⟨_, _, hstep, ?_, ?_, ?_, ?_⟩
    · rw [chunks_cons hb (txBytes ys) (txBytes_ne_nil h)]
      simp only [List.map_cons]
      rw [txBytes_take, htx, txBytes_drop]
    · simp only [List.map_cons, List.flatten_cons]
      rw [hrx]
    · rw [List.length_append, List.length_map, List.length_range, txBytes_length,
        List.length_take, hlen, List.length_drop]
      have hpos : 0 < ys.length := List.length_pos.mpr h
      omega
    · intro t ht
      rcases List.mem_cons.mp ht with h1 | h2
      · subst h1
        refine ⟨rfl, ?_, rfl, rfl, rfl⟩
        simp
      · exact hprops t h2

theorem xfer3_go_typeErr (ioerr : Nat → Option Nat) (rxo : Nat → Nat → Nat)
    {bufsize : Nat} (d sp bi : Nat) (hb : 1 ≤ bufsize)
    (hio : ∀ j, ioerr j = none) (vals : List PyVal) :
    ∀ k j, vals[j]? = some PyVal.pyOther →
      (∀ i, i < j → vals[i]? ≠ some PyVal.pyOther) →
      ∃ tr, xfer3_go ioerr rxo bufsize d sp bi k vals = (tr, .error .typeError) ∧
        tr.length = j / bufsize := by
  refine listBlocks_induction hb
    (P := fun ys => ∀ k j, ys[j]? = some PyVal.pyOther →
      (∀ i, i < j → ys[i]? ≠ some PyVal.pyOther) →
      ∃ tr, xfer3_go ioerr rxo bufsize d sp bi k ys = (tr, .error .typeError) ∧
        tr.length = j / bufsize)
    (fun ys ih => ?_) vals
  intro k j hj hfirst
  have hne : ys ≠ [] := by
    intro hnil
    subst hnil
    simp at hj
  have hb0 : bufsize ≠ 0 := by omega
  have hjlen : j < ys.length := by
    by_contra hge
    rw [List.getElem?_eq_none (Nat.le_of_not_lt hge)] at hj
    exact Option.noConfusion hj
  by_cases hcase : j < bufsize
  · -- the bad element is in the first block: TypeError before any call
    have hmem : PyVal.pyOther ∈ ys.take bufsize := by
      have hjt : (ys.take bufsize)[j]? = some PyVal.pyOther := by
        rw [List.getElem?_take_of_lt hcase]
        exact hj
      exact List.getElem?_mem hjt
    have hnall : ¬ allInts (ys.take bufsize) := fun hall => (hall _ hmem) rfl
    have hm : marshalBlock (ys.take bufsize) = .error .typeError :=
      marshalBlock_err _ hnall
    refine ⟨[], ?_, by simp [Nat.div_eq_of_lt hcase]⟩
    unfold xfer3_go
    rw [dif_neg (by simp [hne, hb0])]
    simp only [hm]
  · -- the first block is clean and transferred; recurse
    have hble : bufsize ≤ j := Nat.le_of_not_lt hcase
    have htake : allInts (ys.take bufsize) := by
      intro v hv
      obtain ⟨i, hi⟩ := List.mem_iff_getElem?.mp hv
      obtain ⟨hilen, hgot⟩ := List.getElem?_eq_some_iff.mp hi
      have hibuf : i < bufsize := by
        rw [List.length_take] at hilen
        omega
      have hys : ys[i]? = some v := by
        rw [List.getElem?_take_of_lt hibuf] at hi
        exact hi
      intro hbad
      subst hbad
      exact hfirst i (by omega) hys
    have hm : marshalBlock (ys.take bufsize) = .ok (txBytes (ys.take bufsize)) :=
      marshalBlock_ok _ htake
    have hjd : (ys.drop bufsize)[j - bufsize]? = some PyVal.pyOther := by
      rw [List.getElem?_drop]
      rwa [Nat.add_sub_cancel' hble]
    have hfd : ∀ i, i < j - bufsize → (ys.drop bufsize)[i]? ≠ some PyVal.pyOther := by
      intro i hi
      rw [List.getElem?_drop]
      exact hfirst (bufsize + i) (by omega)
    obtain ⟨tr', heq, hlen⟩ := ih hne (k + 1) (j - bufsize) hjd hfd
    refine ⟨⟨txBytes (ys.take bufsize),
        (List.range (txBytes (ys.take bufsize)).length).map (fun i => rxo k i % 256),
        (txBytes (ys.take bufsize)).length, d, sp, bi⟩ :: tr', ?_, ?_⟩
    · unfold xfer3_go
      rw [dif_neg (by simp [hne, hb0])]
      simp only [hm, hio, heq]
    · simp only [List.length_cons, hlen]
      rw [Nat.div_eq_sub_div (by omega : 0 < bufsize) hble]

theorem writebytes2_go_ok (wr : Nat → Nat → KRes Nat) {bufsize : Nat}
    (hb : 1 ≤ bufsize) (hwr : ∀ k m, wr k m = .ok m) (vals : List PyVal) :
    ∀ k, allInts vals →
      ∃ tr, writebytes2_go wr bufsize k vals = (tr, .ok ()) ∧
        wrBlocksOf tr = chunks bufsize (txBytes vals) := by
  refine listBlocks_induction hb
    (P := fun ys => ∀ k, allInts ys →
      ∃ tr, writebytes2_go wr bufsize k ys = (tr, .ok ()) ∧
        wrBlocksOf tr = chunks bufsize (txBytes ys))
    (fun ys ih => ?_) vals
  intro k hall
  rcases eq_or_ne ys [] with h | h
  · subst h
    refine ⟨[], ?_, by simp [wrBlocksOf, chunks, txBytes]⟩
    unfold writebytes2_go; simp
  · have hb0 : bufsize ≠ 0 := by omega
    have htake : allInts (ys.take bufsize) :=
      fun v hv => hall v (List.mem_of_mem_take hv)
    have hdrop : allInts (ys.drop bufsize) :=
      fun v hv => hall v (List.mem_of_mem_drop hv)
    obtain ⟨tr', heq, hblocks⟩ := ih h (k + 1) hdrop
    have hm : marshalBlock (ys.take bufsize) = .ok (txBytes (ys.take bufsize)) :=
      marshalBlock_ok _ htake
    refine ⟨KCall.wrCall (txBytes (ys.take bufsize)) :: tr', ?_, ?_⟩
    · unfold writebytes2_go
      rw [dif_neg (by simp [h, hb0])]
      simp only [hm, hwr, heq, if_neg (by simp : ¬ (txBytes (ys.take bufsize)).length ≠ (txBytes (ys.take bufsize)).length)]
    · simp only [wrBlocksOf, List.filterMap_cons]
      rw [chunks_cons hb (txBytes ys) (txBytes_ne_nil h)]
      congr 1
      · rw [txBytes_take]
      · show wrBlocksOf tr' = chunks bufsize (List.drop bufsize (txBytes ys))
        rw [hblocks, txBytes_drop]

theorem writebytes2_buf_go_ok (wr : Nat → Nat → KRes Nat) {B : Nat}
    (hB : 1 ≤ B) (hwr : ∀ k m, wr k m = .ok m) (data : List Nat) :
    ∀ k, ∃ tr, writebytes2_buf_go wr B k data = (tr, .ok ()) ∧
      wrBlocksOf tr = chunks B data := by
  refine listBlocks_induction hB
    (P := fun ys => ∀ k, ∃ tr, writebytes2_buf_go wr B k ys = (tr, .ok ()) ∧
      wrBlocksOf tr = chunks B ys)
    (fun ys ih => ?_) data
  intro k
  rcases eq_or_ne ys [] with h | h
  · subst h
    refine ⟨[], ?_, by simp [wrBlocksOf, chunks]⟩
    unfold writebytes2_buf_go; simp
  · have hB0 : B ≠ 0 := by omega
    obtain ⟨tr', heq, hblocks⟩ := ih h (k + 1)
    refine ⟨KCall.wrCall (ys.take B) :: tr', ?_, ?_⟩
    · unfold writebytes2_buf_go
      rw [dif_neg (by simp [h, hB0])]
      simp only [hwr, heq, if_neg (by simp : ¬ (ys.take B).length ≠ (ys.take B).length)]
    · simp only [wrBlocksOf, List.filterMap_cons]
      rw [chunks_cons hB ys h]
      congr 1

theorem oor_none_right (a : Option Nat) : oor a none = a := by
  cases a <;> rfl

theorem oor_assoc (a b c : Option Nat) : oor (oor a b) c = oor a (oor b c) := by
  cases a <;> rfl

theorem lastEv_append (f : Ev → Option Nat) (e1 e2 : List Ev) :
    lastEv f (e1 ++ e2) = oor (lastEv f e2) (lastEv f e1) := by
  induction e1 with
  | nil => simp [lastEv, oor_none_right]
  | cons x xs ih =>
    simp only [List.cons_append, lastEv, List.append_eq, ih, oor_assoc]

theorem setMode_inv (s : SpiState) (v : PyVal) (wr : KRes Unit) (rd : KRes Nat) :
    cachedInv s (SpiDev_set_mode s v wr rd).1
      (evsOf (SpiDev_set_mode s v wr rd).2.1 (SpiDev_set_mode s v wr rd).2.2) := by
  unfold SpiDev_set_mode cachedInv
  cases hv : pyLongAsU8 v with
  | none => simp [evsOf, lastEv, oor]
  | some m =>
    by_cases hm : 3 < m
    · simp [hm, evsOf, lastEv, oor]
    · simp only [if_neg hm]
      unfold __spidev_set_mode
      cases wr with
      | err e => simp [evsOf, lastEv, oor]
      | ok u =>
        cases rd with
        | err e => simp [evsOf, lastEv, oor]
        | ok test =>
          by_cases ht : test % 256 = (s.mode &&& 252) ||| m
          · simp [ht, evsOf, lastEv, oor, evOfCall, evModeVal, evBitsVal,
              evSpeedVal, List.filterMap]
          · simp [ht, evsOf, lastEv, oor]

theorem setModeflag_inv (mask : Nat) (s : SpiState) (v : PyVal)
    (wr : KRes Unit) (rd : KRes Nat) :
    cachedInv s (SpiDev_set_modeflag mask s v wr rd).1
      (evsOf (SpiDev_set_modeflag mask s v wr rd).2.1
        (SpiDev_set_modeflag mask s v wr rd).2.2) := by
  unfold SpiDev_set_modeflag cachedInv
  cases v with
  | pyInt n => simp [evsOf, lastEv, oor]
  | pyOther => simp [evsOf, lastEv, oor]
  | pyBool b =>
    unfold __spidev_set_mode
    cases wr with
    | err e => simp [evsOf, lastEv, oor]
    | ok u =>
      cases rd with
      | err e => simp [evsOf, lastEv, oor]
      | ok test =>
        by_cases ht : test % 256 = (if b then s.mode ||| mask else s.mode &&& (255 ^^^ mask))
        · simp [ht, evsOf, lastEv, oor, evOfCall, evModeVal, evBitsVal,
            evSpeedVal, List.filterMap]
        · simp [ht, evsOf, lastEv, oor]

theorem setBits_inv (s : SpiState) (v : PyVal) (wr : KRes Unit) :
    cachedInv s (SpiDev_set_bits_per_word s v wr).1
      (evsOf (SpiDev_set_bits_per_word s v wr).2.1
        (SpiDev_set_bits_per_word s v wr).2.2) := by
  unfold SpiDev_set_bits_per_word cachedInv
  cases hv : pyLongAsU8 v with
  | none => simp [evsOf, lastEv, oor]
  | some bits =>
    by_cases hr : bits < 8 ∨ 32 < bits
    · simp [hr, evsOf, lastEv, oor]
    · simp only [if_neg hr]
      by_cases hd : s.bits_per_word ≠ bits
      · simp only [if_pos hd]
        cases wr with
        | err e => simp [evsOf, lastEv, oor]
        | ok u =>
          simp [evsOf, lastEv, oor, evOfCall, evModeVal, evBitsVal,
            evSpeedVal, List.filterMap]
      · simp [hd, evsOf, lastEv, oor]

theorem setSpeed_inv (s : SpiState) (v : PyVal) (wr : KRes Unit) :
    cachedInv s (SpiDev_set_max_speed_hz s v wr).1
      (evsOf (SpiDev_set_max_speed_hz s v wr).2.1
        (SpiDev_set_max_speed_hz s v wr).2.2) := by
  unfold SpiDev_set_max_speed_hz cachedInv
  cases hv : pyLongAsU32 v with
  | none => simp [evsOf, lastEv, oor]
  | some v2 =>
    by_cases hd : s.max_speed_hz ≠ v2
    · simp only [if_pos hd]
      cases wr with
      | err e => simp [evsOf, lastEv, oor]
      | ok u =>
        simp [evsOf, lastEv, oor, evOfCall, evModeVal, evBitsVal,
          evSpeedVal, List.filterMap]
    · simp [hd, evsOf, lastEv, oor]

theorem step_inv (s : SpiState) (op : Op) :
    cachedInv s (step s op).1 (evsOf (step s op).2.1 (step s op).2.2) := by
  cases op with
  | oMode v wr rd => exact setMode_inv s v wr rd
  | oCshigh v wr rd => exact setModeflag_inv 4 s v wr rd
  | oLsbfirst v wr rd => exact setModeflag_inv 8 s v wr rd
  | oThreewire v wr rd => exact setModeflag_inv 16 s v wr rd
  | oLoop v wr rd => exact setModeflag_inv 32 s v wr rd
  | oNoCs v wr rd => exact setModeflag_inv 64 s v wr rd
  | oBits v wr => exact setBits_inv s v wr
  | oSpeed v wr => exact setSpeed_inv s v wr

theorem cachedInv_comp {s1 s2 s3 : SpiState} {e1 e2 : List Ev}
    (h12 : cachedInv s1 s2 e1) (h23 : cachedInv s2 s3 e2) :
    cachedInv s1 s3 (e1 ++ e2) := by
  obtain ⟨hm1, hb1, hs1⟩ := h12
  obtain ⟨hm2, hb2, hs2⟩ := h23
  refine ⟨?_, ?_, ?_⟩
  · rw [lastEv_append]
    cases h2 : lastEv evModeVal e2 with
    | some v => rw [hm2, h2]; rfl
    | none => rw [hm2, h2, hm1]; rfl
  · rw [lastEv_append]
    cases h2 : lastEv evBitsVal e2 with
    | some v => rw [hb2, h2]; rfl
    | none => rw [hb2, h2, hb1]; rfl
  · rw [lastEv_append]
    cases h2 : lastEv evSpeedVal e2 with
    | some v => rw [hs2, h2]; rfl
    | none => rw [hs2, h2, hs1]; rfl

theorem run_inv (ops : List Op) : ∀ s : SpiState,
    cachedInv s (run s ops).1 (run s ops).2 := by
  induction ops with
  | nil => intro s; exact ⟨rfl, rfl, rfl⟩
  | cons op ops ih =>
    intro s
    have h1 := step_inv s op
    have h2 := ih (step s op).1
    have h3 := cachedInv_comp h1 h2
    simpa [run] using h3

theorem bufsize_eq_min (n B : Nat) : (if n < B then n else B) = min B n := by
  rcases Nat.lt_or_ge n B with h | h
  · rw [if_pos h, Nat.min_eq_right (Nat.le_of_lt h)]
  · rw [if_neg (Nat.not_lt.mpr h), Nat.min_eq_left h]

theorem msgsOf_map_message (tr : List SpiTransfer) :
    msgsOf (tr.map KCall.message) = tr := by
  induction tr with
  | nil => rfl
  | cons t ts ih =>
    simp only [msgsOf, List.map_cons, List.filterMap_cons] at ih ⊢
    rw [ih]

theorem msgsOf_append (t1 t2 : List KCall) :
    msgsOf (t1 ++ t2) = msgsOf t1 ++ msgsOf t2 := by
  simp [msgsOf, List.filterMap_append]

theorem msgsOf_csTail (c : Prop) [Decidable c] :
    msgsOf (if c then [KCall.rdCall 0] else []) = [] := by
  split <;> rfl

theorem ceil_div_eq {n B : Nat} (hn : 1 ≤ n) (hB : 1 ≤ B) :
    (n + B - 1) / B = (n - 1) / B + 1 := by
  rw [show n + B - 1 = (n - 1) + B by omega, Nat.add_div_right _ (by omega)]

/-- C1: the cached fields of an SPI handle track exactly the configuration
values successfully written via ioctl.  For every initial handle state and
every sequence of configuration-setter invocations (mode, cshigh, lsbfirst,
threewire, loop, no_cs, bits_per_word, max_speed_hz) with arbitrary kernel
responses, each cached field of the final state equals the last value of its
kind successfully written via ioctl during the run, or its initial value
when no such write happened; in particular a failing ioctl sequence leaves
the cached field unchanged and a successful one leaves it equal to the value
just written. -/
theorem C1_cached_fields_track_last_write (s : SpiState) (ops : List Op) :
    cachedInv s (run s ops).1 (run s ops).2 :=
  run_inv ops s

/-- C6: get_xfer3_block_size returns the bufsiz value v when 0 < v <= 65535,
caps it to 65535 when v > 65535, falls back to 4096 when the file is
unreadable or non-positive; the result is always in [1, 65535], is cached,
and later invocations return the cached value unchanged. -/
theorem C6_block_size_discovery (file file2 : Option Int) :
    (1 ≤ (get_xfer3_block_size 0 file).1 ∧ (get_xfer3_block_size 0 file).1 ≤ 65535) ∧
    (∀ v : Int, file = some v → 0 < v → v ≤ 65535 →
      (get_xfer3_block_size 0 file).1 = v.toNat) ∧
    (∀ v : Int, file = some v → 65535 < v →
      (get_xfer3_block_size 0 file).1 = 65535) ∧
    (file = none → (get_xfer3_block_size 0 file).1 = 4096) ∧
    (∀ v : Int, file = some v → v ≤ 0 →
      (get_xfer3_block_size 0 file).1 = 4096) ∧
    (get_xfer3_block_size 0 file).2 = (get_xfer3_block_size 0 file).1 ∧
    get_xfer3_block_size (get_xfer3_block_size 0 file).2 file2 =
      ((get_xfer3_block_size 0 file).1, (get_xfer3_block_size 0 file).1) := by
  have hmain : (get_xfer3_block_size 0 file).1 =
      (match file with
       | none => 4096
       | some value =>
         if 0 < value then (if value ≤ 65535 then value.toNat else 65535)
         else 4096) := by
    simp [get_xfer3_block_size]
  have hsnd : (get_xfer3_block_size 0 file).2 = (get_xfer3_block_size 0 file).1 := by
    simp [get_xfer3_block_size]
  have hbnd : 1 ≤ (get_xfer3_block_size 0 file).1 ∧
      (get_xfer3_block_size 0 file).1 ≤ 65535 := by
    rw [hmain]
    cases file with
    | none => norm_num
    | some v =>
      simp only []
      split_ifs <;> omega
  refine ⟨hbnd, ?_, ?_, ?_, ?_, hsnd, ?_⟩
  · intro v hv h1 h2
    subst hv
    rw [hmain]
    simp [h1, h2]
  · intro v hv h1
    subst hv
    rw [hmain]
    simp [(show (0 : Int) < v by omega), (show ¬ v ≤ 65535 by omega)]
  · intro hf
    subst hf
    rw [hmain]
  · intro v hv h1
    subst hv
    rw [hmain]
    simp [(show ¬ (0 : Int) < v by omega)]
  · obtain ⟨hb1, hb2⟩ := hbnd
    rw [hsnd]
    generalize hR : (get_xfer3_block_size 0 file).1 = R at hb1 hb2 ⊢
    unfold get_xfer3_block_size
    rw [if_pos (by omega : R ≠ 0)]

theorem C6_block_size_discovery_witness :
    (get_xfer3_block_size 0 (some 70000)).1 = 65535 ∧
    get_xfer3_block_size (get_xfer3_block_size 0 (some 70000)).2 (some 5) =
      ((get_xfer3_block_size 0 (some 70000)).1,
       (get_xfer3_block_size 0 (some 70000)).1) :=
  ⟨(C6_block_size_discovery (some 70000) (some 5)).2.2.1 70000 rfl (by norm_num),
   (C6_block_size_discovery (some 70000) (some 5)).2.2.2.2.2.2⟩

/-- C9: readbytes silently clamps the requested length to [1, 4096] (a len
below 1 reads 1 byte, a len above 4096 reads 4096 bytes) and, when the
kernel read succeeds with exactly the clamped count, returns a list of
exactly the clamped length whose elements are the bytes read, each in
[0, 255]. -/
theorem C9_readbytes_clamps (s : SpiState) (len : Int) (buf : Nat → Nat) :
    (len < 1 → clampLen len = 1) ∧
    (4096 < len → clampLen len = 4096) ∧
    (1 ≤ len → len ≤ 4096 → clampLen len = len.toNat) ∧
    1 ≤ clampLen len ∧ clampLen len ≤ 4096 ∧
    SpiDev_readbytes s len (.ok (clampLen len)) buf =
      (s, [KCall.rdCall (clampLen len)],
       .ok ((List.range (clampLen len)).map (fun i => buf i % 256))) ∧
    ((List.range (clampLen len)).map (fun i => buf i % 256)).length = clampLen len ∧
    (∀ x ∈ (List.range (clampLen len)).map (fun i => buf i % 256), x < 256) := by
  refine ⟨?_, ?_, ?_, ?_, ?_, ?_, ?_, ?_⟩
  · intro h
    simp [clampLen, h]
  · intro h
    unfold clampLen
    rw [if_neg (by omega), if_pos h]
  · intro h1 h2
    unfold clampLen
    rw [if_neg (by omega), if_neg (by omega)]
  · unfold clampLen
    split_ifs <;> omega
  · unfold clampLen
    split_ifs <;> omega
  · simp [SpiDev_readbytes]
  · simp
  · intro x hx
    simp only [List.mem_map] at hx
    obtain ⟨i, hi, hx⟩ := hx
    omega

theorem C9_readbytes_clamps_witness :
    clampLen (-5) = 1 ∧
    SpiDev_readbytes ⟨3, 0, 8, 500000⟩ (-5) (.ok (clampLen (-5))) (fun _ => 300) =
      (⟨3, 0, 8, 500000⟩, [KCall.rdCall (clampLen (-5))],
       .ok ((List.range (clampLen (-5))).map (fun _ => 300 % 256))) :=
  ⟨(C9_readbytes_clamps ⟨3, 0, 8, 500000⟩ (-5) (fun _ => 300)).1 (by norm_num),
   (C9_readbytes_clamps ⟨3, 0, 8, 500000⟩ (-5) (fun _ => 300)).2.2.2.2.2.1⟩

/-- C5: after a successful open(bus, device), the handle's fd is the
descriptor returned by opening /dev/spidev(bus).(device) read-write, and
the cached mode, bits_per_word and max_speed_hz are exactly the bytes and
word the kernel reported via SPI_IOC_RD_MODE, SPI_IOC_RD_BITS_PER_WORD and
SPI_IOC_RD_MAX_SPEED_HZ. -/
theorem C5_open_initialises_handle (s : SpiState) (bus device fd : Int)
    (m b sp : Nat) (hpath : (spidevPath bus device).length < 4096) :
    SpiDev_open s bus device (.ok fd) (.ok m) (.ok b) (.ok sp) =
      ({ fd := fd, mode := m % 256, bits_per_word := b % 256,
         max_speed_hz := sp % 4294967296 },
       [KCall.openCall (spidevPath bus device), KCall.ioctlRdMode,
        KCall.ioctlRdBits, KCall.ioctlRdSpeed], .ok ()) := by
  unfold SpiDev_open
  rw [if_neg (by omega)]

theorem C5_open_initialises_handle_witness :
    SpiDev_open ⟨-1, 0, 0, 0⟩ 0 0 (.ok 3) (.ok 1) (.ok 8) (.ok 500000) =
      ({ fd := 3, mode := 1, bits_per_word := 8, max_speed_hz := 500000 },
       [KCall.openCall (spidevPath 0 0), KCall.ioctlRdMode, KCall.ioctlRdBits,
        KCall.ioctlRdSpeed], .ok ()) :=
  C5_open_initialises_handle ⟨-1, 0, 0, 0⟩ 0 0 3 1 8 500000 (by decide)

theorem writebytes_len0 (s : SpiState) (vals : List PyVal) (wr : Nat → KRes Nat)
    (h : vals.length % 65536 = 0) :
    SpiDev_writebytes s vals wr = (s, [], .error .typeError) := by
  unfold SpiDev_writebytes
  rw [if_pos h]

theorem writebytes_lenBig (s : SpiState) (vals : List PyVal) (wr : Nat → KRes Nat)
    (h : 4096 < vals.length % 65536) :
    SpiDev_writebytes s vals wr = (s, [], .error .overflowError) := by
  unfold SpiDev_writebytes
  rw [if_neg (by omega), if_pos h]

theorem xfer_len0 (s : SpiState) (vals : List PyVal) (sp d b : Nat)
    (io : KRes Unit) (rxo : Nat → Nat) (csRd : KRes Nat)
    (h : vals.length % 65536 = 0) :
    SpiDev_xfer s vals sp d b io rxo csRd = (s, [], .error .typeError) := by
  unfold SpiDev_xfer
  rw [if_pos h]

theorem xfer_lenBig (s : SpiState) (vals : List PyVal) (sp d b : Nat)
    (io : KRes Unit) (rxo : Nat → Nat) (csRd : KRes Nat)
    (h : 4096 < vals.length % 65536) :
    SpiDev_xfer s vals sp d b io rxo csRd = (s, [], .error .overflowError) := by
  unfold SpiDev_xfer
  rw [if_neg (by omega), if_pos h]

theorem xfer2_len0 (s : SpiState) (vals : List PyVal) (sp d b : Nat)
    (io : KRes Unit) (rxo : Nat → Nat) (csRd : KRes Nat)
    (h : vals.length % 65536 = 0) :
    SpiDev_xfer2 s vals sp d b io rxo csRd = (s, [], .error .typeError) := by
  unfold SpiDev_xfer2
  rw [if_pos h]

theorem xfer2_lenBig (s : SpiState) (vals : List PyVal) (sp d b : Nat)
    (io : KRes Unit) (rxo : Nat → Nat) (csRd : KRes Nat)
    (h : 4096 < vals.length % 65536) :
    SpiDev_xfer2 s vals sp d b io rxo csRd = (s, [], .error .overflowError) := by
  unfold SpiDev_xfer2
  rw [if_neg (by omega), if_pos h]

/-- C8 (amended): for writebytes, xfer and xfer2 the sequence length is
first truncated to 16 bits (the C `len` is `uint16_t`).  An input whose
truncated length is 0 — the empty list, but also any length that is a
multiple of 65536 — raises TypeError, and one whose truncated length
exceeds 4096 raises OverflowError; in both cases no kernel call is issued
and the handle state is unchanged. -/
theorem C8_length_checks :
    (∀ (s : SpiState) (vals : List PyVal) (wr : Nat → KRes Nat),
      vals.length % 65536 = 0 →
      SpiDev_writebytes s vals wr = (s, [], .error .typeError)) ∧
    (∀ (s : SpiState) (vals : List PyVal) (wr : Nat → KRes Nat),
      4096 < vals.length % 65536 →
      SpiDev_writebytes s vals wr = (s, [], .error .overflowError)) ∧
    (∀ (s : SpiState) (vals : List PyVal) (sp d b : Nat) (io : KRes Unit)
        (rxo : Nat → Nat) (csRd : KRes Nat),
      vals.length % 65536 = 0 →
      SpiDev_xfer s vals sp d b io rxo csRd = (s, [], .error .typeError)) ∧
    (∀ (s : SpiState) (vals : List PyVal) (sp d b : Nat) (io : KRes Unit)
        (rxo : Nat → Nat) (csRd : KRes Nat),
      4096 < vals.length % 65536 →
      SpiDev_xfer s vals sp d b io rxo csRd = (s, [], .error .overflowError)) ∧
    (∀ (s : SpiState) (vals : List PyVal) (sp d b : Nat) (io : KRes Unit)
        (rxo : Nat → Nat) (csRd : KRes Nat),
      vals.length % 65536 = 0 →
      SpiDev_xfer2 s vals sp d b io rxo csRd = (s, [], .error .typeError)) ∧
    (∀ (s : SpiState) (vals : List PyVal) (sp d b : Nat) (io : KRes Unit)
        (rxo : Nat → Nat) (csRd : KRes Nat),
      4096 < vals.length % 65536 →
      SpiDev_xfer2 s vals sp d b io rxo csRd = (s, [], .error .overflowError)) :=
  ⟨writebytes_len0, writebytes_lenBig, xfer_len0, xfer_lenBig, xfer2_len0,
   xfer2_lenBig⟩

/-- C8 counterexample: a sequence of 65536 elements is longer than 4096,
yet writebytes raises TypeError (the `uint16_t` length truncates to 0, so
the list is treated as empty), not OverflowError. -/
theorem C8_counterexample :
    SpiDev_writebytes ⟨3, 0, 8, 500000⟩ (List.replicate 65536 (PyVal.pyInt 1))
        (fun _ => KRes.ok 0) =
      (⟨3, 0, 8, 500000⟩, [], .error .typeError) ∧
    4096 < (List.replicate 65536 (PyVal.pyInt 1)).length ∧
    PyErr.typeError ≠ PyErr.overflowError := by
  refine ⟨?_, by rw [List.length_replicate]; norm_num, by decide⟩
  exact writebytes_len0 _ _ _ (by rw [List.length_replicate])

theorem C8_length_checks_witness :
    SpiDev_writebytes ⟨3, 0, 8, 500000⟩ ([] : List PyVal) (fun _ => KRes.ok 0) =
      (⟨3, 0, 8, 500000⟩, [], .error .typeError) ∧
    SpiDev_writebytes ⟨3, 0, 8, 500000⟩ (List.replicate 5000 (PyVal.pyInt 1))
        (fun _ => KRes.ok 0) =
      (⟨3, 0, 8, 500000⟩, [], .error .overflowError) :=
  ⟨C8_length_checks.1 ⟨3, 0, 8, 500000⟩ [] (fun _ => KRes.ok 0) (by decide),
   C8_length_checks.2.1 ⟨3, 0, 8, 500000⟩ (List.replicate 5000 (PyVal.pyInt 1))
     (fun _ => KRes.ok 0) (by rw [List.length_replicate]; norm_num)⟩

set_option maxRecDepth 4096 in
theorem mode_bits_key : ∀ x < 256, ∀ m < 4,
    ((x &&& 252) ||| m) % 4 = m ∧ ((x &&& 252) ||| m) / 4 = x / 4 := by decide

/-- C10 (amended): reading the mode attribute returns only the CPOL/CPHA
bits (mode mod 4) of the cached mode byte.  Setting mode first truncates
the value to uint8: when the truncated value is at most 3, a successful
set changes only the two low bits of the cached mode (all other flag bits
and fields preserved); when the truncated value exceeds 3, TypeError is
raised and the state is unchanged.  (The check is on the truncated value,
so e.g. 256 is accepted as 0 — see the counterexample.) -/
theorem C10_mode_cpol_cpha (s : SpiState) (m : Int) (wr : KRes Unit)
    (rd : KRes Nat) (hsm : s.mode < 256) :
    (SpiDev_get_mode s = s.mode % 4) ∧
    ((m % 256).toNat ≤ 3 →
      (SpiDev_set_mode s (.pyInt m) wr rd).2.2 = .ok () →
      (SpiDev_set_mode s (.pyInt m) wr rd).1.mode % 4 = (m % 256).toNat ∧
      (SpiDev_set_mode s (.pyInt m) wr rd).1.mode / 4 = s.mode / 4 ∧
      (SpiDev_set_mode s (.pyInt m) wr rd).1.fd = s.fd ∧
      (SpiDev_set_mode s (.pyInt m) wr rd).1.bits_per_word = s.bits_per_word ∧
      (SpiDev_set_mode s (.pyInt m) wr rd).1.max_speed_hz = s.max_speed_hz) ∧
    (3 < (m % 256).toNat →
      SpiDev_set_mode s (.pyInt m) wr rd = (s, [], .error .typeError)) := by
  refine ⟨?_, ?_, ?_⟩
  · unfold SpiDev_get_mode
    have h := Nat.and_pow_two_sub_one_eq_mod s.mode 2
    norm_num at h
    exact h
  · intro hm hok
    unfold SpiDev_set_mode at hok ⊢
    simp only [pyLongAsU8, pyLongAsLong, Option.map] at hok ⊢
    rw [if_neg (by omega)] at hok ⊢
    cases hr : (__spidev_set_mode ((s.mode &&& 252) ||| (m % 256).toNat) wr rd).2 with
    | error e =>
      rw [hr] at hok
      exact absurd hok (fun hcon => Except.noConfusion hcon)
    | ok u =>
      have hk := mode_bits_key s.mode hsm (m % 256).toNat (by omega)
      exact ⟨hk.1, hk.2, rfl, rfl, rfl⟩
  · intro hm
    unfold SpiDev_set_mode
    simp only [pyLongAsU8, pyLongAsLong, Option.map]
    rw [if_pos hm]

/-- C10 counterexample: setting mode to 256 — an integer greater than 3 —
does not raise TypeError: the value is truncated to uint8 first, so it acts
as 0, and the cached mode changes from 2 to 0. -/
theorem C10_counterexample :
    SpiDev_set_mode ⟨3, 2, 8, 500000⟩ (.pyInt 256) (.ok ()) (.ok 0) =
      (⟨3, 0, 8, 500000⟩, [KCall.ioctlWrMode 0, KCall.ioctlRdMode], .ok ()) ∧
    (3 : Int) < 256 := by
  exact ⟨rfl, by norm_num⟩

theorem C10_mode_cpol_cpha_witness :
    (SpiDev_set_mode ⟨3, 6, 8, 500000⟩ (.pyInt 1) (.ok ()) (.ok 5)).1.mode % 4 =
        ((1 : Int) % 256).toNat ∧
    (SpiDev_set_mode ⟨3, 6, 8, 500000⟩ (.pyInt 1) (.ok ()) (.ok 5)).1.mode / 4 =
        (6 : Nat) / 4 ∧
    (SpiDev_set_mode ⟨3, 6, 8, 500000⟩ (.pyInt 1) (.ok ()) (.ok 5)).1.fd = 3 ∧
    (SpiDev_set_mode ⟨3, 6, 8, 500000⟩ (.pyInt 1) (.ok ()) (.ok 5)).1.bits_per_word = 8 ∧
    (SpiDev_set_mode ⟨3, 6, 8, 500000⟩ (.pyInt 1) (.ok ()) (.ok 5)).1.max_speed_hz =
        500000 :=
  (C10_mode_cpol_cpha ⟨3, 6, 8, 500000⟩ 1 (.ok ()) (.ok 5) (by decide)).2.1
    (by decide) (by decide)

theorem xfer3_go_first_err (ioerr : Nat → Option Nat) (rxo : Nat → Nat → Nat)
    {bufsize : Nat} (d sp bi : Nat) (hb : 1 ≤ bufsize) (vals : List PyVal)
    (hne : vals ≠ []) (hall : allInts vals) (e : Nat) (h0 : ioerr 0 = some e) :
    (xfer3_go ioerr rxo bufsize d sp bi 0 vals).2 = .error (.ioError e) := by
  unfold xfer3_go
  rw [dif_neg (not_or.mpr ⟨hne, by omega⟩)]
  rw [marshalBlock_ok _ (fun v hv => hall v (List.mem_of_mem_take hv))]
  simp only [h0]

theorem writebytes2_go_first_err (wr : Nat → Nat → KRes Nat) {bufsize : Nat}
    (hb : 1 ≤ bufsize) (vals : List PyVal) (hne : vals ≠ [])
    (hall : allInts vals) (e : Nat) (h0 : ∀ m, wr 0 m = .err e) :
    (writebytes2_go wr bufsize 0 vals).2 = .error (.ioError e) := by
  unfold writebytes2_go
  rw [dif_neg (not_or.mpr ⟨hne, by omega⟩)]
  rw [marshalBlock_ok _ (fun v hv => hall v (List.mem_of_mem_take hv))]
  simp only [h0]

theorem writebytes2_buf_go_first_err (wr : Nat → Nat → KRes Nat) {B : Nat}
    (hB : 1 ≤ B) (data : List Nat) (hne : data ≠ []) (e : Nat)
    (h0 : ∀ m, wr 0 m = .err e) :
    (writebytes2_buf_go wr B 0 data).2 = .error (.ioError e) := by
  unfold writebytes2_buf_go
  rw [dif_neg (not_or.mpr ⟨hne, by omega⟩)]
  simp only [h0]

/-- C3 (amended): every listed operation propagates a failing kernel call
as an IOError carrying the kernel's errno and produces no result: the
read/write/ioctl of readbytes, writebytes, writebytes2 (both paths), the
SPI_IOC_MESSAGE ioctl of xfer, xfer2 and xfer3, the open and the three
SPI_IOC_RD ioctls of open, and the SPI_IOC_WR ioctls of the setters.  The
one exception — which the original claim does not allow — is the
zero-length chip-select workaround read issued by xfer/xfer2/xfer3 when
SPI_CS_HIGH is set: its result is ignored (see the counterexample). -/
theorem C3_errno_propagation (e : Nat) :
    (∀ (s : SpiState) (len : Int) (buf : Nat → Nat),
      (SpiDev_readbytes s len (.err e) buf).2.2 = .error (.ioError e)) ∧
    (∀ (s : SpiState) (vals : List PyVal),
      1 ≤ vals.length % 65536 → vals.length % 65536 ≤ 4096 → allInts vals →
      (SpiDev_writebytes s vals (fun _ => .err e)).2.2 = .error (.ioError e)) ∧
    (∀ (s : SpiState) (vals : List PyVal) (sp d b : Nat) (rxo : Nat → Nat)
        (csRd : KRes Nat),
      1 ≤ vals.length % 65536 → vals.length % 65536 ≤ 4096 → allInts vals →
      (SpiDev_xfer s vals sp d b (.err e) rxo csRd).2.2 = .error (.ioError e)) ∧
    (∀ (s : SpiState) (vals : List PyVal) (sp d b : Nat) (rxo : Nat → Nat)
        (csRd : KRes Nat),
      1 ≤ vals.length % 65536 → vals.length % 65536 ≤ 4096 → allInts vals →
      (SpiDev_xfer2 s vals sp d b (.err e) rxo csRd).2.2 = .error (.ioError e)) ∧
    (∀ (s : SpiState) (vals : List PyVal) (sp d b B : Nat)
        (ioerr : Nat → Option Nat) (rxo : Nat → Nat → Nat) (csRd : KRes Nat),
      1 ≤ B → 1 ≤ vals.length → allInts vals → ioerr 0 = some e →
      (SpiDev_xfer3 s vals sp d b B ioerr rxo csRd).2.2 = .error (.ioError e)) ∧
    (∀ (s : SpiState) (vals : List PyVal) (B : Nat) (wr : Nat → Nat → KRes Nat),
      1 ≤ B → 1 ≤ vals.length → allInts vals → (∀ m, wr 0 m = .err e) →
      (SpiDev_writebytes2_seq s vals B wr).2.2 = .error (.ioError e)) ∧
    (∀ (s : SpiState) (data : List Nat) (B : Nat) (wr : Nat → Nat → KRes Nat),
      1 ≤ B → data ≠ [] → (∀ m, wr 0 m = .err e) →
      (SpiDev_writebytes2_buffer s data B wr).2.2 = .error (.ioError e)) ∧
    (∀ (s : SpiState) (bus device : Int) (rdM rdB rdS : KRes Nat),
      (spidevPath bus device).length < 4096 →
      (SpiDev_open s bus device (.err e) rdM rdB rdS).2.2 = .error (.ioError e)) ∧
    (∀ (s : SpiState) (bus device fd : Int) (rdB rdS : KRes Nat),
      (spidevPath bus device).length < 4096 →
      (SpiDev_open s bus device (.ok fd) (.err e) rdB rdS).2.2 =
        .error (.ioError e)) ∧
    (∀ (s : SpiState) (bus device fd : Int) (m : Nat) (rdS : KRes Nat),
      (spidevPath bus device).length < 4096 →
      (SpiDev_open s bus device (.ok fd) (.ok m) (.err e) rdS).2.2 =
        .error (.ioError e)) ∧
    (∀ (s : SpiState) (bus device fd : Int) (m b : Nat),
      (spidevPath bus device).length < 4096 →
      (SpiDev_open s bus device (.ok fd) (.ok m) (.ok b) (.err e)).2.2 =
        .error (.ioError e)) ∧
    (∀ (s : SpiState) (m : Int) (rd : KRes Nat),
      (m % 256).toNat ≤ 3 →
      (SpiDev_set_mode s (.pyInt m) (.err e) rd).2.2 = .error (.ioError e)) ∧
    (∀ (s : SpiState) (m : Int),
      (m % 256).toNat ≤ 3 →
      (SpiDev_set_mode s (.pyInt m) (.ok ()) (.err e)).2.2 = .error (.ioError e)) ∧
    (∀ (mask : Nat) (s : SpiState) (b : Bool) (rd : KRes Nat),
      (SpiDev_set_modeflag mask s (.pyBool b) (.err e) rd).2.2 =
        .error (.ioError e)) ∧
    (∀ (mask : Nat) (s : SpiState) (b : Bool),
      (SpiDev_set_modeflag mask s (.pyBool b) (.ok ()) (.err e)).2.2 =
        .error (.ioError e)) ∧
    (∀ (s : SpiState) (m : Int),
      8 ≤ (m % 256).toNat → (m % 256).toNat ≤ 32 →
      s.bits_per_word ≠ (m % 256).toNat →
      (SpiDev_set_bits_per_word s (.pyInt m) (.err e)).2.2 =
        .error (.ioError e)) ∧
    (∀ (s : SpiState) (m : Int),
      s.max_speed_hz ≠ (m % 4294967296).toNat →
      (SpiDev_set_max_speed_hz s (.pyInt m) (.err e)).2.2 =
        .error (.ioError e)) := by
  refine ⟨?_, ?_, ?_, ?_, ?_, ?_, ?_, ?_, ?_, ?_, ?_, ?_, ?_, ?_, ?_, ?_, ?_⟩
  · intro s len buf
    rfl
  · intro s vals h1 h2 hall
    unfold SpiDev_writebytes
    rw [if_neg (by omega), if_neg (by omega)]
    rw [marshalBlock_ok _ (fun v hv => hall v (List.mem_of_mem_take hv))]
  · intro s vals sp d b rxo csRd h1 h2 hall
    unfold SpiDev_xfer
    rw [if_neg (by omega), if_neg (by omega)]
    rw [marshalBlock_ok _ (fun v hv => hall v (List.mem_of_mem_take hv))]
  · intro s vals sp d b rxo csRd h1 h2 hall
    unfold SpiDev_xfer2
    rw [if_neg (by omega), if_neg (by omega)]
    rw [marshalBlock_ok _ (fun v hv => hall v (List.mem_of_mem_take hv))]
  · intro s vals sp d b B ioerr rxo csRd hB hn hall h0
    have hne : vals ≠ [] := by
      intro hnil
      rw [hnil] at hn
      simp at hn
    have hb : 1 ≤ (if vals.length < B then vals.length else B) := by
      rcases Nat.lt_or_ge vals.length B with h | h
      · rw [if_pos h]; omega
      · rw [if_neg (Nat.not_lt.mpr h)]; omega
    have hgo := xfer3_go_first_err ioerr rxo d
      (if sp ≠ 0 then sp else s.max_speed_hz)
      (if b ≠ 0 then b else s.bits_per_word) hb vals hne hall e h0
    unfold SpiDev_xfer3
    rw [if_neg (by omega)]
    simp only [hgo]
  · intro s vals B wr hB hn hall h0
    have hne : vals ≠ [] := by
      intro hnil
      rw [hnil] at hn
      simp at hn
    by_cases hc : (if vals.length < B then vals.length else B) ≤ 128
    · have hgo := writebytes2_go_first_err wr
        (show (1 : Nat) ≤ 128 by omega) vals hne hall e h0
      unfold SpiDev_writebytes2_seq
      rw [if_neg (by omega), if_pos hc]
      simp only [hgo]
    · have hb : 1 ≤ (if vals.length < B then vals.length else B) := by omega
      have hgo := writebytes2_go_first_err wr hb vals hne hall e h0
      unfold SpiDev_writebytes2_seq
      rw [if_neg (by omega), if_neg hc]
      simp only [hgo]
  · intro s data B wr hB hne h0
    have hgo := writebytes2_buf_go_first_err wr hB data hne e h0
    unfold SpiDev_writebytes2_buffer
    simp only [hgo]
  · intro s bus device rdM rdB rdS hpath
    unfold SpiDev_open
    rw [if_neg (by omega)]
  · intro s bus device fd rdB rdS hpath
    unfold SpiDev_open
    rw [if_neg (by omega)]
  · intro s bus device fd m rdS hpath
    unfold SpiDev_open
    rw [if_neg (by omega)]
  · intro s bus device fd m b hpath
    unfold SpiDev_open
    rw [if_neg (by omega)]
  · intro s m rd hm
    unfold SpiDev_set_mode __spidev_set_mode
    simp only [pyLongAsU8, pyLongAsLong, Option.map]
    rw [if_neg (by omega)]
  · intro s m hm
    unfold SpiDev_set_mode __spidev_set_mode
    simp only [pyLongAsU8, pyLongAsLong, Option.map]
    rw [if_neg (by omega)]
  · intro mask s b rd
    rfl
  · intro mask s b
    rfl
  · intro s m h1 h2 hd
    unfold SpiDev_set_bits_per_word
    simp only [pyLongAsU8, pyLongAsLong, Option.map]
    rw [if_neg (by omega), if_pos hd]
  · intro s m hd
    unfold SpiDev_set_max_speed_hz
    simp only [pyLongAsU32, pyLongAsLong, Option.map]
    rw [if_pos hd]

/-- C3 counterexample: with SPI_CS_HIGH set in the cached mode, xfer issues
a zero-length workaround read after the transfer; here that kernel read
fails (errno 5), yet the operation ignores it and returns the received
bytes instead of raising IOError — contradicting the claim that every
negative kernel-call result raises IOError and yields no result. -/
theorem C3_counterexample :
    SpiDev_xfer ⟨3, 4, 8, 500000⟩ [PyVal.pyInt 1] 0 0 0 (.ok ()) (fun _ => 0)
        (.err 5) =
      (⟨3, 4, 8, 500000⟩,
       [KCall.message ⟨[1], [0], 1, 0, 500000, 8⟩, KCall.rdCall 0],
       .ok [0]) := by
  rfl

theorem C3_errno_propagation_witness :
    (SpiDev_readbytes ⟨3, 0, 8, 500000⟩ 4 (.err 5) (fun _ => 0)).2.2 =
      .error (.ioError 5) ∧
    (SpiDev_writebytes ⟨3, 0, 8, 500000⟩ [PyVal.pyInt 1] (fun _ => .err 5)).2.2 =
      .error (.ioError 5) ∧
    (SpiDev_xfer3 ⟨3, 0, 8, 500000⟩ [PyVal.pyInt 1, PyVal.pyInt 2] 0 0 0 2
        (fun _ => some 5) (fun _ _ => 0) (.ok 0)).2.2 = .error (.ioError 5) ∧
    (SpiDev_set_max_speed_hz ⟨3, 0, 8, 500000⟩ (.pyInt 1000) (.err 5)).2.2 =
      .error (.ioError 5) :=
  ⟨(C3_errno_propagation 5).1 _ _ _,
   (C3_errno_propagation 5).2.1 _ _ (by decide) (by decide) (by decide),
   (C3_errno_propagation 5).2.2.2.2.1 _ _ _ _ _ _ _ _ _ (by decide) (by decide)
     (by decide) rfl,
   (C3_errno_propagation 5).2.2.2.2.2.2.2.2.2.2.2.2.2.2.2.2 _ _ (by decide)⟩

/-- C7: every integer element is marshalled to its value modulo 256 (C
truncation of the long to __u8), and a non-integer element raises
TypeError before the kernel call for the block that contains it: for the
single-block operations writebytes, xfer and xfer2 no kernel call at all
is issued, and for xfer3 exactly the complete blocks before the offending
element's block are transferred. -/
theorem C7_marshalling :
    (∀ ns : List Int, marshalBlock (ns.map PyVal.pyInt) =
      .ok (ns.map (fun n => (n % 256).toNat))) ∧
    (∀ (s : SpiState) (vals : List PyVal) (wr : Nat → KRes Nat),
      1 ≤ vals.length % 65536 → vals.length % 65536 ≤ 4096 →
      ¬ allInts (vals.take (vals.length % 65536)) →
      SpiDev_writebytes s vals wr = (s, [], .error .typeError)) ∧
    (∀ (s : SpiState) (vals : List PyVal) (sp d b : Nat) (io : KRes Unit)
        (rxo : Nat → Nat) (csRd : KRes Nat),
      1 ≤ vals.length % 65536 → vals.length % 65536 ≤ 4096 →
      ¬ allInts (vals.take (vals.length % 65536)) →
      SpiDev_xfer s vals sp d b io rxo csRd = (s, [], .error .typeError)) ∧
    (∀ (s : SpiState) (vals : List PyVal) (sp d b : Nat) (io : KRes Unit)
        (rxo : Nat → Nat) (csRd : KRes Nat),
      1 ≤ vals.length % 65536 → vals.length % 65536 ≤ 4096 →
      ¬ allInts (vals.take (vals.length % 65536)) →
      SpiDev_xfer2 s vals sp d b io rxo csRd = (s, [], .error .typeError)) ∧
    (∀ (s : SpiState) (vals : List PyVal) (sp d b B : Nat)
        (ioerr : Nat → Option Nat) (rxo : Nat → Nat → Nat) (csRd : KRes Nat)
        (j : Nat),
      1 ≤ B → (∀ k, ioerr k = none) →
      vals[j]? = some PyVal.pyOther →
      (∀ i, i < j → vals[i]? ≠ some PyVal.pyOther) →
      ∃ tr, SpiDev_xfer3 s vals sp d b B ioerr rxo csRd =
          (s, tr, .error .typeError) ∧
        tr.length = j / min B vals.length) := by
  refine ⟨?_, ?_, ?_, ?_, ?_⟩
  · intro ns
    have hall : allInts (ns.map PyVal.pyInt) := by
      intro v hv
      simp only [List.mem_map] at hv
      obtain ⟨n, hn, hv⟩ := hv
      subst hv
      intro hcon
      exact PyVal.noConfusion hcon
    rw [marshalBlock_ok _ hall]
    congr 1
    simp only [txBytes, List.map_map]
    rfl
  · intro s vals wr h1 h2 hna
    unfold SpiDev_writebytes
    rw [if_neg (by omega), if_neg (by omega), marshalBlock_err _ hna]
  · intro s vals sp d b io rxo csRd h1 h2 hna
    unfold SpiDev_xfer
    rw [if_neg (by omega), if_neg (by omega), marshalBlock_err _ hna]
  · intro s vals sp d b io rxo csRd h1 h2 hna
    unfold SpiDev_xfer2
    rw [if_neg (by omega), if_neg (by omega), marshalBlock_err _ hna]
  · intro s vals sp d b B ioerr rxo csRd j hB hio hj hfirst
    have hjlen : j < vals.length := by
      by_contra hge
      rw [List.getElem?_eq_none (Nat.le_of_not_lt hge)] at hj
      exact Option.noConfusion hj
    have hne : vals ≠ [] := by
      intro h0
      subst h0
      simp at hjlen
    have hb : 1 ≤ (if vals.length < B then vals.length else B) := by
      rcases Nat.lt_or_ge vals.length B with h | h
      · rw [if_pos h]; omega
      · rw [if_neg (Nat.not_lt.mpr h)]; omega
    obtain ⟨tr, heq, hlen⟩ := xfer3_go_typeErr ioerr rxo d
      (if sp ≠ 0 then sp else s.max_speed_hz)
      (if b ≠ 0 then b else s.bits_per_word) hb hio vals 0 j hj hfirst
    refine ⟨tr.map KCall.message, ?_, ?_⟩
    · unfold SpiDev_xfer3
      rw [if_neg (by omega)]
      simp only [heq]
    · rw [List.length_map, hlen, bufsize_eq_min]

theorem C7_marshalling_witness :
    marshalBlock (List.map PyVal.pyInt [300, -1]) =
      .ok (List.map (fun n => (n % 256).toNat) [300, -1]) ∧
    SpiDev_writebytes ⟨3, 0, 8, 500000⟩ [PyVal.pyInt 1, PyVal.pyOther]
        (fun _ => KRes.ok 2) = (⟨3, 0, 8, 500000⟩, [], .error .typeError) ∧
    (∃ tr, SpiDev_xfer3 ⟨3, 0, 8, 500000⟩
        [PyVal.pyInt 1, PyVal.pyInt 2, PyVal.pyOther] 0 0 0 1
        (fun _ => none) (fun _ _ => 0) (.ok 0) =
        (⟨3, 0, 8, 500000⟩, tr, .error .typeError) ∧
      tr.length = 2 / min 1 3) :=
  ⟨C7_marshalling.1 [300, -1],
   C7_marshalling.2.1 _ _ _ (by decide) (by decide) (by decide),
   C7_marshalling.2.2.2.2 _ _ _ _ _ _ _ _ _ 2 (by decide) (fun k => rfl)
     (by decide) (by decide)⟩

theorem chunks_bufsize_eq (vals : List PyVal) (B : Nat) :
    chunks (if vals.length < B then vals.length else B) (txBytes vals) =
      chunks B (txBytes vals) := by
  rw [bufsize_eq_min, ← txBytes_length vals, chunks_min]

/-- C2 (amended): for every non-empty integer input and block size B >= 1,
with all kernel calls succeeding, xfer3 and the writebytes2 buffer path
split the marshalled bytes into consecutive blocks of size
min(remaining, B) <= B (the `chunks` partition), issue exactly one kernel
call per block in order — ceil(n/B) calls in total, the loop terminating —
with the concatenation of the transmitted blocks equal to the marshalled
input, and xfer3 returns exactly n received bytes, the per-block received
bytes concatenated in input order.  The writebytes2 sequence path, however,
chunks at `seqBlockSize n B` — 128 (SMALL_BUFFER_SIZE) whenever
min(n, B) <= 128, min(n, B) otherwise — because its stack-buffer branch
passes SMALL_BUFFER_SIZE, not the computed bufsize, to seq_internal; its
blocks are min(remaining, seqBlockSize n B), which exceeds B when B < 128,
with ceil(n / seqBlockSize n B) calls (see the counterexample). -/
theorem C2_chunked_transfers :
    (∀ (s : SpiState) (vals : List PyVal) (sp d b B : Nat)
        (ioerr : Nat → Option Nat) (rxo : Nat → Nat → Nat) (csRd : KRes Nat),
      1 ≤ vals.length → 1 ≤ B → allInts vals → (∀ k, ioerr k = none) →
      (SpiDev_xfer3 s vals sp d b B ioerr rxo csRd).1 = s ∧
      ((msgsOf (SpiDev_xfer3 s vals sp d b B ioerr rxo csRd).2.1).map
          SpiTransfer.tx = chunks B (txBytes vals)) ∧
      (((msgsOf (SpiDev_xfer3 s vals sp d b B ioerr rxo csRd).2.1).map
          SpiTransfer.tx).flatten = txBytes vals) ∧
      ((msgsOf (SpiDev_xfer3 s vals sp d b B ioerr rxo csRd).2.1).length =
        (vals.length + B - 1) / B) ∧
      (∀ t ∈ msgsOf (SpiDev_xfer3 s vals sp d b B ioerr rxo csRd).2.1,
        t.tx.length ≤ B ∧ t.len = t.tx.length ∧ t.rx.length = t.len) ∧
      (∃ rx, (SpiDev_xfer3 s vals sp d b B ioerr rxo csRd).2.2 = .ok rx ∧
        rx.length = vals.length ∧
        rx = ((msgsOf (SpiDev_xfer3 s vals sp d b B ioerr rxo csRd).2.1).map
          SpiTransfer.rx).flatten)) ∧
    (∀ (s : SpiState) (vals : List PyVal) (B : Nat) (wr : Nat → Nat → KRes Nat),
      1 ≤ vals.length → 1 ≤ B → allInts vals → (∀ k m, wr k m = .ok m) →
      (SpiDev_writebytes2_seq s vals B wr).1 = s ∧
      (SpiDev_writebytes2_seq s vals B wr).2.2 = .ok () ∧
      wrBlocksOf (SpiDev_writebytes2_seq s vals B wr).2.1 =
        chunks (seqBlockSize vals.length B) (txBytes vals) ∧
      (wrBlocksOf (SpiDev_writebytes2_seq s vals B wr).2.1).flatten =
        txBytes vals ∧
      (wrBlocksOf (SpiDev_writebytes2_seq s vals B wr).2.1).length =
        (vals.length + seqBlockSize vals.length B - 1) /
          seqBlockSize vals.length B ∧
      (∀ bk ∈ wrBlocksOf (SpiDev_writebytes2_seq s vals B wr).2.1,
        bk.length ≤ seqBlockSize vals.length B)) ∧
    (∀ (s : SpiState) (data : List Nat) (B : Nat) (wr : Nat → Nat → KRes Nat),
      1 ≤ data.length → 1 ≤ B → (∀ k m, wr k m = .ok m) →
      (SpiDev_writebytes2_buffer s data B wr).1 = s ∧
      (SpiDev_writebytes2_buffer s data B wr).2.2 = .ok () ∧
      wrBlocksOf (SpiDev_writebytes2_buffer s data B wr).2.1 = chunks B data ∧
      (wrBlocksOf (SpiDev_writebytes2_buffer s data B wr).2.1).flatten = data ∧
      (wrBlocksOf (SpiDev_writebytes2_buffer s data B wr).2.1).length =
        (data.length + B - 1) / B ∧
      (∀ bk ∈ wrBlocksOf (SpiDev_writebytes2_buffer s data B wr).2.1,
        bk.length ≤ B)) := by
  refine ⟨?_, ?_, ?_⟩
  · intro s vals sp d b B ioerr rxo csRd hn hB hall hio
    have hne : vals ≠ [] := by
      intro h0
      rw [h0] at hn
      simp at hn
    have hb : 1 ≤ (if vals.length < B then vals.length else B) := by
      rcases Nat.lt_or_ge vals.length B with h | h
      · rw [if_pos h]; omega
      · rw [if_neg (Nat.not_lt.mpr h)]; omega
    obtain ⟨tr, rx, heq, htx, hrx, hlen, hprops⟩ := xfer3_go_ok ioerr rxo d
      (if sp ≠ 0 then sp else s.max_speed_hz)
      (if b ≠ 0 then b else s.bits_per_word) hb hio vals 0 hall
    have hmain : SpiDev_xfer3 s vals sp d b B ioerr rxo csRd =
        (s, tr.map KCall.message ++
          (if s.mode &&& 4 ≠ 0 then [KCall.rdCall 0] else []), .ok rx) := by
      unfold SpiDev_xfer3
      rw [if_neg (by omega)]
      simp only [heq]
    have hmsgs : msgsOf (SpiDev_xfer3 s vals sp d b B ioerr rxo csRd).2.1 = tr := by
      rw [hmain]
      show msgsOf (tr.map KCall.message ++
        (if s.mode &&& 4 ≠ 0 then [KCall.rdCall 0] else [])) = tr
      rw [msgsOf_append, msgsOf_map_message, msgsOf_csTail, List.append_nil]
    have htxB : tr.map SpiTransfer.tx = chunks B (txBytes vals) := by
      rw [htx, chunks_bufsize_eq]
    refine ⟨by rw [hmain], ?_, ?_, ?_, ?_, ?_⟩
    · rw [hmsgs, htxB]
    · rw [hmsgs, htxB, chunks_join]
    · rw [hmsgs, ← List.length_map tr SpiTransfer.tx, htxB,
        chunks_length hB _ (txBytes_ne_nil hne), txBytes_length,
        ceil_div_eq hn hB]
    · intro t ht
      rw [hmsgs] at ht
      have h1 : t.tx ∈ chunks B (txBytes vals) := by
        rw [← htxB]
        exact List.mem_map_of_mem SpiTransfer.tx ht
      obtain ⟨hp1, hp2, hp3, hp4, hp5⟩ := hprops t ht
      exact ⟨chunks_sizes hB _ _ h1, hp1, hp2⟩
    · refine ⟨rx, by rw [hmain], hlen, ?_⟩
      rw [hmsgs, hrx]
  · intro s vals B wr hn hB hall hwr
    have hne : vals ≠ [] := by
      intro h0
      rw [h0] at hn
      simp at hn
    have hbs : 1 ≤ seqBlockSize vals.length B := by
      simp only [seqBlockSize]
      split_ifs <;> omega
    obtain ⟨tr, heq, hblocks⟩ := writebytes2_go_ok wr hbs hwr vals 0 hall
    have hmain : SpiDev_writebytes2_seq s vals B wr = (s, tr, .ok ()) := by
      unfold SpiDev_writebytes2_seq
      rw [if_neg (by omega)]
      by_cases hc : (if vals.length < B then vals.length else B) ≤ 128
      · rw [if_pos hc]
        have h128 : seqBlockSize vals.length B = 128 := by
          unfold seqBlockSize
          rw [if_pos hc]
        rw [h128] at heq
        simp only [heq]
      · rw [if_neg hc]
        have hbig : seqBlockSize vals.length B =
            (if vals.length < B then vals.length else B) := by
          unfold seqBlockSize
          rw [if_neg hc]
        rw [hbig] at heq
        simp only [heq]
    refine ⟨by rw [hmain], by rw [hmain], ?_, ?_, ?_, ?_⟩
    · rw [hmain]
      exact hblocks
    · rw [hmain]
      show (wrBlocksOf tr).flatten = txBytes vals
      rw [hblocks, chunks_join]
    · rw [hmain]
      show (wrBlocksOf tr).length =
        (vals.length + seqBlockSize vals.length B - 1) / seqBlockSize vals.length B
      rw [hblocks, chunks_length hbs _ (txBytes_ne_nil hne), txBytes_length,
        ceil_div_eq hn hbs]
    · intro bk hbk
      rw [hmain] at hbk
      have h1 : bk ∈ chunks (seqBlockSize vals.length B) (txBytes vals) := by
        rw [← hblocks]
        exact hbk
      exact chunks_sizes hbs _ _ h1
  · intro s data B wr hn hB hwr
    have hne : data ≠ [] := by
      intro h0
      rw [h0] at hn
      simp at hn
    obtain ⟨tr, heq, hblocks⟩ := writebytes2_buf_go_ok wr hB hwr data 0
    have hmain : SpiDev_writebytes2_buffer s data B wr = (s, tr, .ok ()) := by
      unfold SpiDev_writebytes2_buffer
      simp only [heq]
    refine ⟨by rw [hmain], by rw [hmain], ?_, ?_, ?_, ?_⟩
    · rw [hmain]
      exact hblocks
    · rw [hmain]
      show (wrBlocksOf tr).flatten = data
      rw [hblocks, chunks_join]
    · rw [hmain]
      show (wrBlocksOf tr).length = (data.length + B - 1) / B
      rw [hblocks, chunks_length hB _ hne, ceil_div_eq hn hB]
    · intro bk hbk
      rw [hmain] at hbk
      have h1 : bk ∈ chunks B data := by
        rw [← hblocks]
        exact hbk
      exact chunks_sizes hB _ _ h1

/-- C2 counterexample: with discovered block size B = 2 and three integer
inputs, the writebytes2 sequence path takes the stack-buffer branch
(min(3, 2) = 2 <= SMALL_BUFFER_SIZE) and passes 128 — not B — as the block
size to the write loop: it issues a single kernel write of all 3 marshalled
bytes, a block larger than B = 2, in one call instead of the claimed
min(remaining, B) partition [2, 1] in ceil(3/2) = 2 calls. -/
theorem C2_counterexample :
    SpiDev_writebytes2_seq ⟨3, 0, 8, 500000⟩
        [PyVal.pyInt 1, PyVal.pyInt 2, PyVal.pyInt 3] 2 (fun _ m => .ok m) =
      (⟨3, 0, 8, 500000⟩, [KCall.wrCall [1, 2, 3]], .ok ()) ∧
    ¬ (∀ bk ∈ wrBlocksOf [KCall.wrCall [1, 2, 3]], bk.length ≤ 2) ∧
    (wrBlocksOf [KCall.wrCall ([1, 2, 3] : List Nat)]).length ≠
      (3 + 2 - 1) / 2 := by
  refine ⟨?_, by decide, by decide⟩
  have hgo : writebytes2_go (fun _ m => KRes.ok m) 128 0
      [PyVal.pyInt 1, PyVal.pyInt 2, PyVal.pyInt 3] =
      ([KCall.wrCall [1, 2, 3]], .ok ()) := by
    unfold writebytes2_go
    rw [dif_neg (by simp)]
    rw [List.take_of_length_le (by norm_num)]
    rw [show marshalBlock [PyVal.pyInt 1, PyVal.pyInt 2, PyVal.pyInt 3] =
      .ok [1, 2, 3] from by decide]
    rw [List.drop_eq_nil_of_le (by norm_num)]
    unfold writebytes2_go
    rw [dif_pos (Or.inl rfl)]
    norm_num
  unfold SpiDev_writebytes2_seq
  rw [if_neg (by simp), if_pos (by norm_num)]
  rw [hgo]

theorem C2_chunked_transfers_witness :
    ((msgsOf (SpiDev_xfer3 ⟨3, 0, 8, 500000⟩
        [PyVal.pyInt 300, PyVal.pyInt 2, PyVal.pyInt 3] 0 0 0 2
        (fun _ => none) (fun _ _ => 7) (.ok 0)).2.1).map SpiTransfer.tx =
      chunks 2 (txBytes [PyVal.pyInt 300, PyVal.pyInt 2, PyVal.pyInt 3])) ∧
    ((msgsOf (SpiDev_xfer3 ⟨3, 0, 8, 500000⟩
        [PyVal.pyInt 300, PyVal.pyInt 2, PyVal.pyInt 3] 0 0 0 2
        (fun _ => none) (fun _ _ => 7) (.ok 0)).2.1).length = (3 + 2 - 1) / 2) ∧
    (wrBlocksOf (SpiDev_writebytes2_buffer ⟨3, 0, 8, 500000⟩ [1, 2, 3] 2
        (fun _ m => .ok m)).2.1 = chunks 2 [1, 2, 3]) ∧
    (wrBlocksOf (SpiDev_writebytes2_seq ⟨3, 0, 8, 500000⟩
        [PyVal.pyInt 300, PyVal.pyInt 2, PyVal.pyInt 3] 2
        (fun _ m => .ok m)).2.1 =
      chunks (seqBlockSize 3 2)
        (txBytes [PyVal.pyInt 300, PyVal.pyInt 2, PyVal.pyInt 3])) :=
  ⟨(C2_chunked_transfers.1 ⟨3, 0, 8, 500000⟩
      [PyVal.pyInt 300, PyVal.pyInt 2, PyVal.pyInt 3] 0 0 0 2
      (fun _ => none) (fun _ _ => 7) (.ok 0) (by decide) (by decide) (by decide)
      (fun k => rfl)).2.1,
   (C2_chunked_transfers.1 ⟨3, 0, 8, 500000⟩
      [PyVal.pyInt 300, PyVal.pyInt 2, PyVal.pyInt 3] 0 0 0 2
      (fun _ => none) (fun _ _ => 7) (.ok 0) (by decide) (by decide) (by decide)
      (fun k => rfl)).2.2.2.1,
   (C2_chunked_transfers.2.2 ⟨3, 0, 8, 500000⟩ [1, 2, 3] 2 (fun _ m => .ok m)
      (by decide) (by decide) (fun k m => rfl)).2.2.1,
   (C2_chunked_transfers.2.1 ⟨3, 0, 8, 500000⟩
      [PyVal.pyInt 300, PyVal.pyInt 2, PyVal.pyInt 3] 2 (fun _ m => .ok m)
      (by decide) (by decide) (by decide) (fun k m => rfl)).2.2.1⟩

/-- C4: the spi_ioc_transfer struct passed to SPI_IOC_MESSAGE(1) carries the
marshalled tx buffer, len equal to the sequence length (the block size for
xfer3), delay_usecs equal to the delay argument, speed_hz equal to the
speed argument when nonzero and the cached max_speed_hz otherwise, and
bits_per_word equal to the bits argument when nonzero and the cached
bits_per_word otherwise — for xfer, xfer2 and every block of xfer3. -/
theorem C4_transfer_struct :
    (∀ (s : SpiState) (vals : List PyVal) (sp d b : Nat) (rxo : Nat → Nat)
        (csRd : KRes Nat),
      1 ≤ vals.length → vals.length ≤ 4096 → allInts vals →
      SpiDev_xfer s vals sp d b (.ok ()) rxo csRd =
        (s, KCall.message ⟨txBytes vals,
              (List.range vals.length).map (fun i => rxo i % 256),
              vals.length, d,
              (if sp ≠ 0 then sp else s.max_speed_hz),
              (if b ≠ 0 then b else s.bits_per_word)⟩ ::
            (if s.mode &&& 4 ≠ 0 then [KCall.rdCall 0] else []),
         .ok ((List.range vals.length).map (fun i => rxo i % 256)))) ∧
    (∀ (s : SpiState) (vals : List PyVal) (sp d b : Nat) (rxo : Nat → Nat)
        (csRd : KRes Nat),
      1 ≤ vals.length → vals.length ≤ 4096 → allInts vals →
      SpiDev_xfer2 s vals sp d b (.ok ()) rxo csRd =
        (s, KCall.message ⟨txBytes vals,
              (List.range vals.length).map (fun i => rxo i % 256),
              vals.length, d,
              (if sp ≠ 0 then sp else s.max_speed_hz),
              (if b ≠ 0 then b else s.bits_per_word)⟩ ::
            (if s.mode &&& 4 ≠ 0 then [KCall.rdCall 0] else []),
         .ok ((List.range vals.length).map (fun i => rxo i % 256)))) ∧
    (∀ (s : SpiState) (vals : List PyVal) (sp d b B : Nat)
        (ioerr : Nat → Option Nat) (rxo : Nat → Nat → Nat) (csRd : KRes Nat),
      1 ≤ vals.length → 1 ≤ B → allInts vals → (∀ k, ioerr k = none) →
      ∀ t ∈ msgsOf (SpiDev_xfer3 s vals sp d b B ioerr rxo csRd).2.1,
        t.len = t.tx.length ∧ t.delay_usecs = d ∧
        t.speed_hz = (if sp ≠ 0 then sp else s.max_speed_hz) ∧
        t.bits_per_word = (if b ≠ 0 then b else s.bits_per_word)) := by
  refine ⟨?_, ?_, ?_⟩
  · intro s vals sp d b rxo csRd h1 h2 hall
    have hlen : vals.length % 65536 = vals.length := Nat.mod_eq_of_lt (by omega)
    simp only [SpiDev_xfer, hlen]
    rw [if_neg (by omega), if_neg (by omega), List.take_length,
      marshalBlock_ok _ hall]
  · intro s vals sp d b rxo csRd h1 h2 hall
    have hlen : vals.length % 65536 = vals.length := Nat.mod_eq_of_lt (by omega)
    simp only [SpiDev_xfer2, hlen]
    rw [if_neg (by omega), if_neg (by omega), List.take_length,
      marshalBlock_ok _ hall]
  · intro s vals sp d b B ioerr rxo csRd hn hB hall hio
    have hne : vals ≠ [] := by
      intro h0
      rw [h0] at hn
      simp at hn
    have hb : 1 ≤ (if vals.length < B then vals.length else B) := by
      rcases Nat.lt_or_ge vals.length B with h | h
      · rw [if_pos h]; omega
      · rw [if_neg (Nat.not_lt.mpr h)]; omega
    obtain ⟨tr, rx, heq, htx, hrx, hlen, hprops⟩ := xfer3_go_ok ioerr rxo d
      (if sp ≠ 0 then sp else s.max_speed_hz)
      (if b ≠ 0 then b else s.bits_per_word) hb hio vals 0 hall
    have hmain : SpiDev_xfer3 s vals sp d b B ioerr rxo csRd =
        (s, tr.map KCall.message ++
          (if s.mode &&& 4 ≠ 0 then [KCall.rdCall 0] else []), .ok rx) := by
      unfold SpiDev_xfer3
      rw [if_neg (by omega)]
      simp only [heq]
    have hmsgs : msgsOf (SpiDev_xfer3 s vals sp d b B ioerr rxo csRd).2.1 = tr := by
      rw [hmain]
      show msgsOf (tr.map KCall.message ++
        (if s.mode &&& 4 ≠ 0 then [KCall.rdCall 0] else [])) = tr
      rw [msgsOf_append, msgsOf_map_message, msgsOf_csTail, List.append_nil]
    intro t ht
    rw [hmsgs] at ht
    obtain ⟨hp1, hp2, hp3, hp4, hp5⟩ := hprops t ht
    exact ⟨hp1, hp3, hp4, hp5⟩

theorem C4_transfer_struct_witness :
    SpiDev_xfer ⟨3, 4, 8, 500000⟩ [PyVal.pyInt 300, PyVal.pyInt 2] 0 9 0
        (.ok ()) (fun _ => 7) (.ok 0) =
      (⟨3, 4, 8, 500000⟩,
       KCall.message ⟨[44, 2], [7, 7], 2, 9, 500000, 8⟩ :: [KCall.rdCall 0],
       .ok [7, 7]) :=
  C4_transfer_struct.1 ⟨3, 4, 8, 500000⟩ [PyVal.pyInt 300, PyVal.pyInt 2] 0 9 0
    (fun _ => 7) (.ok 0) (by decide) (by decide) (by decide)
